import Mathlib

/-!
Verification of the microcache HTTP middleware (Go) against its
natural-language specification.

The Go sources are shallowly embedded: pure helpers become Lean functions,
the driver is a pair of total maps returning zero values on miss (matching
the driver contract), machine integers become Int, byte strings become
String, and the effects written to the downstream http.ResponseWriter become
an explicit event list.  The sha1 digest of request.go is modelled by the
exact byte stream that the Go code feeds into the hash: equal streams give
equal digests, and distinct streams are treated as distinct keys
(collision-resistance abstraction stated in the spec).
-/

namespace Microcache

/-- HeaderMap models the Go type http.Header, a map from canonical header
keys to lists of values.  It is represented as an association list; the Go
map iteration order is irrelevant for the properties proved here except
where explicitly discussed. -/
abbrev HeaderMap := List (String × List String)

/-- Response embeds the struct of response.go: a cache object carrying a
found flag, absolute expiry, status, headers and body, which doubles as the
buffered write target handed to the wrapped origin handler. -/
structure Response where
  found : Bool
  expires : Int
  status : Int
  header : HeaderMap
  body : String
  deriving Repr, DecidableEq

/-- The zero value of the Go Response struct, as returned by a driver on a
cache miss. -/
def emptyResponse : Response :=
  { found := false, expires := 0, status := 0, header := [], body := "" }

/-- Canonicalisation of a character inside a MIME header key: the first
character of each hyphen-separated token is uppercased, the rest lowered. -/
def canonChar (up : Bool) (c : Char) : Char :=
  if up then c.toUpper else c.toLower

/-- Model of textproto.CanonicalMIMEHeaderKey from the Go standard library,
restricted to keys made of valid token characters (all keys appearing in
this development are valid tokens). -/
def canonicalMIMEHeaderKey (s : String) : String :=
  String.mk (s.data.foldl
    (fun (acc : List Char × Bool) c => (acc.1 ++ [canonChar acc.2 c], c = '-'))
    ([], true)).1

/-- Model of http.Header.Get: canonicalise the key, return the first value
bound to it, or the empty string. -/
def headerGet (h : HeaderMap) (key : String) : String :=
  match h.find? (fun kv => kv.1 = canonicalMIMEHeaderKey key) with
  | some kv => kv.2.headD ""
  | none => ""

/-- Model of a direct Go map index headers[key] with an already-canonical
key, as used by buildRequestOpts for the vary directives. -/
def headerIndex (h : HeaderMap) (ck : String) : Option (List String) :=
  (h.find? (fun kv => kv.1 = ck)).map (fun kv => kv.2)

/-- Model of http.Header.Set: canonicalise the key and replace its values. -/
def headerSet (h : HeaderMap) (key v : String) : HeaderMap :=
  let ck := canonicalMIMEHeaderKey key
  (h.filter (fun kv => kv.1 ≠ ck)) ++ [(ck, [v])]

/-- Model of http.Header.Add: canonicalise the key and append one value. -/
def headerAdd (h : HeaderMap) (key v : String) : HeaderMap :=
  let ck := canonicalMIMEHeaderKey key
  if (h.find? (fun kv => kv.1 = ck)).isSome then
    h.map (fun kv => if kv.1 = ck then (kv.1, kv.2 ++ [v]) else kv)
  else h ++ [(ck, [v])]

/-- Model of strconv.Atoi as used by buildRequestOpts: the Go code discards
the error, so a non-numeric string contributes 0.  The call sites only act
on results strictly greater than zero, so signs need no modelling. -/
def atoi (s : String) : Int :=
  if s.data ≠ [] ∧ s.data.all Char.isDigit then
    ((s.data.foldl (fun acc c => acc * 10 + (c.toNat - 48)) 0 : Nat) : Int)
  else 0

/-- Model of strings.Trim(v, " "): spaces removed from both ends. -/
def trimSpace (s : String) : String :=
  String.mk (((s.data.dropWhile (fun c => c = ' ')).reverse.dropWhile
    (fun c => c = ' ')).reverse)

/-- RequestOpts embeds the struct of request.go: per-fingerprint cache
policy resolved from the first observed response. -/
structure RequestOpts where
  found : Bool
  ttl : Int
  staleIfError : Int
  staleRecache : Bool
  staleWhileRevalidate : Int
  collapsedForwarding : Bool
  vary : List String
  varyQuery : List String
  nocache : Bool
  deriving Repr, DecidableEq

/-- The zero value of RequestOpts, returned by the driver on a miss. -/
def zeroOpts : RequestOpts :=
  { found := false, ttl := 0, staleIfError := 0, staleRecache := false,
    staleWhileRevalidate := 0, collapsedForwarding := false, vary := [],
    varyQuery := [], nocache := false }

/-- Request models the parts of an http.Request read by the middleware.
queryEnum is one enumeration of the Go map r.URL.Query(): Go ranges over
that map in an unspecified, run-to-run varying order, so two evaluations on
the same request may present the same pairs in different list orders. -/
structure Request where
  method : String
  path : String
  rawQuery : String
  queryEnum : List (String × List String)
  headerGetR : String → String
  connectionUpgrade : Bool

/-- MCConfig carries the fields of the microcache struct read by the
embedded code paths.  The driver is modelled inside EngineState; hasDriver
mirrors the m.Driver == nil test, hasMonitor the m.Monitor != nil tests,
and hasCompressor the m.Compressor != nil tests.  queryIgnore is the
QueryIgnore set of request.go (a Go map used for membership), with none
modelling a nil map. -/
structure MCConfig where
  nocache : Bool
  timeout : Int
  ttl : Int
  staleIfError : Int
  staleRecache : Bool
  staleWhileRevalidate : Int
  hashQuery : Bool
  collapsedForwarding : Bool
  vary : List String
  queryIgnore : Option (String → Bool)
  exposed : Bool
  hasDriver : Bool
  hasMonitor : Bool
  hasCompressor : Bool
  compress : Response → Response
  expand : Response → Response

/-- Embedding of getRequestHash from request.go lines 11-32.  The sha1
digest is modelled by the byte stream written into it: the path, then for
each globally configured Vary header an and-name-colon-value chunk, then
the query contribution; with HashQuery on and a non-nil QueryIgnore the
code walks one enumeration of the query map, skipping ignored keys. -/
def getRequestHash (m : MCConfig) (r : Request) : String :=
  let s := r.path
  let s := m.vary.foldl
    (fun acc header => acc ++ "&" ++ header ++ ":" ++ r.headerGetR header) s
  if m.hashQuery then
    match m.queryIgnore with
    | some ign =>
        r.queryEnum.foldl (fun acc kv =>
          if ign kv.1 then acc
          else kv.2.foldl (fun a v => a ++ "&" ++ kv.1 ++ "=" ++ v) acc) s
    | none => s ++ r.rawQuery
  else s

/-- Embedding of RequestOpts.getObjectHash from request.go lines 49-66: the
request hash, then the effective vary header values, then for each
varyQuery param in order every value present in the query map.  The map
lookup queryParams[param] is deterministic in Go, unlike map iteration. -/
def RequestOpts.getObjectHash (req : RequestOpts) (reqHash : String)
    (r : Request) : String :=
  let s := reqHash
  let s := req.vary.foldl
    (fun acc header => acc ++ "&" ++ header ++ ":" ++ r.headerGetR header) s
  if req.varyQuery.length > 0 then
    req.varyQuery.foldl (fun acc param =>
      match (r.queryEnum.find? (fun kv => kv.1 = param)) with
      | some kv => kv.2.foldl (fun a v => a ++ "&" ++ param ++ "=" ++ v) acc
      | none => acc) s
  else s

/-- Splitting and trimming of a comma separated directive list, as done for
the vary directives in buildRequestOpts. -/
def splitTrim (hdr : String) : List String :=
  (hdr.splitOn ",").map trimSpace

/-- Embedding of buildRequestOpts from request.go lines 68-163: global
defaults overlaid with the directive headers of the captured response. -/
def buildRequestOpts (m : MCConfig) (res : Response) (_r : Request) :
    RequestOpts :=
  let headers := res.header
  let req : RequestOpts :=
    { found := true, nocache := m.nocache, ttl := m.ttl,
      staleIfError := m.staleIfError, staleRecache := m.staleRecache,
      staleWhileRevalidate := m.staleWhileRevalidate,
      collapsedForwarding := m.collapsedForwarding, vary := m.vary,
      varyQuery := [] }
  let req := if headerGet headers "microcache-cache" ≠ "" then
      { req with nocache := false } else req
  let req := if headerGet headers "microcache-nocache" ≠ "" then
      { req with nocache := true } else req
  let ttlHdr := atoi (headerGet headers "microcache-ttl")
  let req := if ttlHdr > 0 then { req with ttl := ttlHdr } else req
  let sieHdr := atoi (headerGet headers "microcache-stale-if-error")
  let req := if sieHdr > 0 then { req with staleIfError := sieHdr } else req
  let swrHdr := atoi (headerGet headers "microcache-stale-while-revalidate")
  let req := if swrHdr > 0 then { req with staleWhileRevalidate := swrHdr }
    else req
  let req := if headerGet headers "microcache-collapsed-forwarding" ≠ "" then
      { req with collapsedForwarding := true } else req
  let req := if headerGet headers "microcache-no-collapsed-forwarding" ≠ "" then
      { req with collapsedForwarding := false } else req
  let req := if headerGet headers "microcache-stale-recache" ≠ "" then
      { req with staleRecache := true } else req
  let req := if headerGet headers "microcache-no-stale-recache" ≠ "" then
      { req with staleRecache := false } else req
  let req := match headerIndex headers "Microcache-Vary-Query" with
    | some varyQueries =>
        { req with varyQuery :=
            req.varyQuery ++ varyQueries.foldl (fun acc hdr => acc ++ splitTrim hdr) [] }
    | none => req
  let req := match headerIndex headers "Microcache-Vary" with
    | some varyHdr =>
        { req with vary :=
            req.vary ++ varyHdr.foldl (fun acc hdr => acc ++ splitTrim hdr) [] }
    | none => req
  let req := match headerIndex headers "Vary" with
    | some varyHdr =>
        { req with vary :=
            req.vary ++ varyHdr.foldl (fun acc hdr => acc ++ splitTrim hdr) [] }
    | none => req
  req

/-! Embedding of response.go: the buffered writer, replay, and the
passthrough writer. -/

/-- WriterOp is one call an origin handler makes on its
http.ResponseWriter: a WriteHeader, a body Write, or a header mutation. -/
inductive WriterOp where
  | writeHeader (code : Int)
  | write (b : String)
  | setHeader (k v : String)
  | addHeader (k v : String)
  deriving Repr, DecidableEq

/-- ClientEv is one observable effect on the downstream (real) response
writer handed to the middleware. -/
inductive ClientEv where
  | setHeader (k v : String)
  | addHeader (k v : String)
  | writeStatus (code : Int)
  | writeBody (b : String)
  deriving Repr, DecidableEq

/-- Embedding of the Write method of Response (response.go lines 19-22):
writes append to the body and nothing else changes; in particular no
implicit status is recorded. -/
def Response.writeBody (res : Response) (b : String) : Response :=
  { res with body := res.body ++ b }

/-- Embedding of the WriteHeader method of Response (response.go lines
28-30): the status is overwritten. -/
def Response.writeHeader (res : Response) (code : Int) : Response :=
  { res with status := code }

/-- Effect of replaying a sequence of origin handler writer calls into a
buffered Response, via the Response methods above and the header map. -/
def runOps (ops : List WriterOp) (res : Response) : Response :=
  ops.foldl (fun r op =>
    match op with
    | WriterOp.writeHeader code => r.writeHeader code
    | WriterOp.write b => r.writeBody b
    | WriterOp.setHeader k v => { r with header := headerSet r.header k v }
    | WriterOp.addHeader k v => { r with header := headerAdd r.header k v }) res

/-- Effect of the same handler writer calls when the handler writes
directly to the downstream client writer (the passthrough cases of the
middleware). -/
def opEvents (ops : List WriterOp) : List ClientEv :=
  ops.map (fun op =>
    match op with
    | WriterOp.writeHeader code => ClientEv.writeStatus code
    | WriterOp.write b => ClientEv.writeBody b
    | WriterOp.setHeader k v => ClientEv.setHeader k v
    | WriterOp.addHeader k v => ClientEv.addHeader k v)

/-- Model of strings.HasPrefix(s, pre): byte-by-byte prefix test, case
sensitive. -/
def hasPrefixStr (s pre : String) : Bool :=
  pre.data.isPrefixOf s.data

/-- Embedding of sendResponse (response.go lines 32-45) as the event list
emitted on the downstream writer: the loop copies every value of every
header whose key does not have the prefix Microcache- (the strings.HasPrefix
test is case sensitive and header, the Go loop variable, ranges over the
canonicalised keys of the map), then WriteHeader(res.status), then a body
Write. -/
def sendResponse (res : Response) : List ClientEv :=
  (res.header.foldl (fun acc kv =>
      if hasPrefixStr kv.1 "Microcache-" then acc
      else acc ++ kv.2.map (fun v => ClientEv.addHeader kv.1 v)) [])
  ++ [ClientEv.writeStatus res.status, ClientEv.writeBody res.body]

/-- PassthroughWriter embeds the passthroughWriter struct of response.go
lines 58-61: a wrapped real writer plus a remembered status field. -/
structure PassthroughWriter where
  status : Int
  deriving Repr, DecidableEq

/-- Embedding of the body of the WriteHeader method of passthroughWriter
(response.go lines 63-66).  The method is declared on a VALUE receiver, so
in Go this returned struct is a copy that the caller discards: the method
also forwards the code to the wrapped writer, which opEvents accounts
for. -/
def passthroughWriteHeader (w : PassthroughWriter) (code : Int) :
    PassthroughWriter :=
  { w with status := code }

/-- Status observed in the ptw variable of Middleware after
h.ServeHTTP(ptw, r) returns.  Go passes ptw into the interface by value and
passthroughWriteHeader mutates a further copy, so no WriteHeader call ever
reaches the ptw variable: the fold below applies the embedded method and,
exactly like Go, keeps the original receiver. -/
def ptwFinalStatus (ops : List WriterOp) : Int :=
  (ops.foldl (fun (p : PassthroughWriter) op =>
    match op with
    | WriterOp.writeHeader code => (fun _ => p) (passthroughWriteHeader p code)
    | _ => p) { status := 0 }).status

/-! Embedding of the cache engine (the middleware source file): driver
state, metric counters, handleBackendResponse, and the Middleware body. -/

/-- Handler models the wrapped origin http.Handler as the sequence of
writer calls it performs for a given request. -/
abbrev Handler := Request → List WriterOp

/-- Pointwise update of a total map, used for the driver stores. -/
def fupd {α : Type} (f : String → α) (k : String) (v : α) : String → α :=
  fun j => if j = k then v else f j

/-- EngineState bundles the shared mutable state of one microcache
instance: the two driver maps (total, zero value on miss, matching the
driver contract that errors and misses both read back as zero values), the
revalidating single-flight set, the monitor counters, and a ghost counter
of origin handler invocations used only to state theorems. -/
structure EngineState where
  requestOpts : String → RequestOpts
  objects : String → Response
  revalidating : String → Bool
  hits : Nat
  misses : Nat
  stales : Nat
  backends : Nat
  errors : Nat
  originCalls : Nat

/-- Monitor hit tick, guarded by m.Monitor != nil. -/
def tickHit (m : MCConfig) (st : EngineState) : EngineState :=
  if m.hasMonitor then { st with hits := st.hits + 1 } else st

/-- Monitor miss tick, guarded by m.Monitor != nil. -/
def tickMiss (m : MCConfig) (st : EngineState) : EngineState :=
  if m.hasMonitor then { st with misses := st.misses + 1 } else st

/-- Monitor stale tick, guarded by m.Monitor != nil. -/
def tickStale (m : MCConfig) (st : EngineState) : EngineState :=
  if m.hasMonitor then { st with stales := st.stales + 1 } else st

/-- Monitor backend tick, guarded by m.Monitor != nil. -/
def tickBackend (m : MCConfig) (st : EngineState) : EngineState :=
  if m.hasMonitor then { st with backends := st.backends + 1 } else st

/-- Monitor error tick, guarded by m.Monitor != nil. -/
def tickError (m : MCConfig) (st : EngineState) : EngineState :=
  if m.hasMonitor then { st with errors := st.errors + 1 } else st

/-- Driver.Set on the response map. -/
def driverSet (st : EngineState) (k : String) (res : Response) : EngineState :=
  { st with objects := fupd st.objects k res }

/-- Driver.SetRequestOpts on the request options map. -/
def driverSetRequestOpts (st : EngineState) (k : String) (o : RequestOpts) :
    EngineState :=
  { st with requestOpts := fupd st.requestOpts k o }

/-- Driver.Remove: a removed key reads back as the zero value. -/
def driverRemove (st : EngineState) (k : String) : EngineState :=
  { st with objects := fupd st.objects k emptyResponse }

/-- Compression applied on store when a compressor is configured. -/
def compressIf (m : MCConfig) (res : Response) : Response :=
  if m.hasCompressor then m.compress res else res

/-- Exposure header event, guarded by the Exposed option. -/
def exposureEvents (m : MCConfig) (v : String) : List ClientEv :=
  if m.exposed then [ClientEv.setHeader "microcache" v] else []

/-- Embedding of the revalidation dedupe gate, the mutex-protected block at
the top of handleBackendResponse: read whether objHash is reserved and, if
not, reserve it.  The first component is true when the caller may proceed
and false when it must abandon. -/
def revalidateGate (objHash : String) (revalidating : String → Bool) :
    Bool × (String → Bool) :=
  let already := revalidating objHash
  (!already, if already then revalidating else fupd revalidating objHash true)

/-- Embedding of the revalidation lock clear at the bottom of
handleBackendResponse. -/
def revalidateRelease (objHash : String) (revalidating : String → Bool) :
    String → Bool :=
  fupd revalidating objHash false

/-- Execution of the wrapped handler into a fresh Response buffer.  With a
configured timeout the middleware wraps the handler in http.TimeoutHandler;
the timedOut oracle tells whether the deadline fired, in which case the
buffered reply is the 503 Timed out sentinel that the timeout handler
writes. -/
def execBackend (m : MCConfig) (h : Handler) (r : Request)
    (timedOut : Bool) : Response :=
  if 0 < m.timeout ∧ timedOut then
    runOps [WriterOp.writeHeader 503, WriterOp.write "Timed out"] emptyResponse
  else runOps (h r) emptyResponse

/-- Embedding of the success-and-render tail of handleBackendResponse
(lines 333-369): on a 2xx or 3xx status resolve and persist the request
options when they are new, recompute the object hash, mark and stamp the
backend response and store it unless nocache; then either render the
backend response as a miss or clear the revalidation reservation.  The
reassigned objHash variable of the Go code is objHash2 here, and the
revalidation clear uses it exactly as the source does. -/
def backendSuccessAndRender (m : MCConfig) (r : Request) (now : Int)
    (reqHash : String) (req : RequestOpts) (objHash : String)
    (beres : Response) (revalidate : Bool) (st : EngineState) :
    EngineState × List ClientEv :=
  let success := 200 ≤ beres.status ∧ beres.status < 400
  let req2 := if success ∧ ¬req.found then buildRequestOpts m beres r else req
  let objHash2 := if success ∧ ¬req.found then req2.getObjectHash reqHash r
    else objHash
  let st1 := if success ∧ ¬req.found then driverSetRequestOpts st reqHash req2
    else st
  let beres2 := if success ∧ ¬req2.nocache then
      { beres with found := true, expires := now + req2.ttl } else beres
  let st2 := if success ∧ ¬req2.nocache then
      driverSet st1 objHash2 (compressIf m beres2) else st1
  if ¬revalidate then
    (tickMiss m st2, exposureEvents m "MISS" ++ sendResponse beres2)
  else
    ({ st2 with revalidating := revalidateRelease objHash2 st2.revalidating },
     [])

/-- Embedding of handleBackendResponse after the dedupe gate and handler
execution (lines 306-369): the stale-if-error branch followed by the
success-and-render tail.  On a 5xx status with an old object present the
error tick always fires, the old object may be re-cached with a fresh
expiry, and outside background revalidation a stale old object is replayed
in place of the failure. -/
def backendFinish (m : MCConfig) (r : Request) (now : Int) (reqHash : String)
    (req : RequestOpts) (objHash : String) (obj : Response) (beres : Response)
    (revalidate : Bool) (st : EngineState) : EngineState × List ClientEv :=
  if 500 ≤ beres.status ∧ obj.found then
    let serveStale := now < obj.expires + req.staleIfError
    let obj2 := if req.found ∧ serveStale ∧ req.staleRecache then
        { obj with expires := now + req.ttl } else obj
    let st1 := if req.found ∧ serveStale ∧ req.staleRecache then
        driverSet st objHash (compressIf m obj2) else st
    let st2 := tickError m st1
    if ¬revalidate ∧ serveStale then
      (tickStale m st2, exposureEvents m "STALE" ++ sendResponse obj2)
    else
      backendSuccessAndRender m r now reqHash req objHash beres revalidate st2
  else
    backendSuccessAndRender m r now reqHash req objHash beres revalidate st

/-- Embedding of handleBackendResponse (lines 268-369).  During background
revalidation the dedupe gate abandons when the object key is already
reserved; otherwise the key is reserved, the backend tick fires, the
handler runs into a fresh buffer (counted by the ghost originCalls), and
backendFinish takes over. -/
def handleBackendResponse (m : MCConfig) (h : Handler) (r : Request)
    (now : Int) (timedOut : Bool) (reqHash : String) (req : RequestOpts)
    (objHash : String) (obj : Response) (revalidate : Bool)
    (st : EngineState) : EngineState × List ClientEv :=
  if revalidate ∧ (revalidateGate objHash st.revalidating).1 = false then
    (st, [])
  else
    let st1 := if revalidate then
        { st with revalidating := (revalidateGate objHash st.revalidating).2 }
      else st
    let st2 := tickBackend m st1
    let beres := execBackend m h r timedOut
    let st3 := { st2 with originCalls := st2.originCalls + 1 }
    backendFinish m r now reqHash req objHash obj beres revalidate st3

/-- MWOut is the outcome of one request through the middleware: the new
engine state, the events the foreground path wrote to the client writer,
and the events a spawned background revalidation wrote to that same
writer. -/
structure MWOut where
  state : EngineState
  fg : List ClientEv
  bg : List ClientEv

/-- Embedding of the Middleware request body (lines 158-266).  The
sequential model runs a spawned stale-while-revalidate refresh immediately
after the foreground reply, keeping its client events separate in bg.  The
collapsed-forwarding lock has no effect in this one-request-at-a-time view
beyond the re-read of the request options, which is kept; the concurrent
behaviour of the lock is modelled separately below.  The discarded result
of m.Compressor.Expand(obj) in the source (the return value is not
assigned) means the fetched object is used as stored, which is how the
lookup is embedded. -/
def middleware (m : MCConfig) (h : Handler) (r : Request) (now : Int)
    (timedOut : Bool) (st : EngineState) : MWOut :=
  if r.connectionUpgrade ∨ ¬m.hasDriver then
    { state := { tickMiss m st with originCalls := st.originCalls + 1 },
      fg := opEvents (h r), bg := [] }
  else
    let reqHash := getRequestHash m r
    let req := st.requestOpts reqHash
    if req.nocache then
      { state := { tickMiss m st with originCalls := st.originCalls + 1 },
        fg := opEvents (h r), bg := [] }
    else
      let req := if m.collapsedForwarding ∧ ¬req.found then
          st.requestOpts reqHash else req
      let objHash := if req.found then req.getObjectHash reqHash r else ""
      let obj := if req.found then st.objects objHash else emptyResponse
      if r.method ≠ "GET" ∧ r.method ≠ "HEAD" then
        let st := tickMiss m st
        if obj.found then
          let st := { st with originCalls := st.originCalls + 1 }
          let st := if 200 ≤ ptwFinalStatus (h r) ∧ ptwFinalStatus (h r) < 400
            then driverRemove st objHash else st
          { state := st, fg := opEvents (h r), bg := [] }
        else
          { state := { st with originCalls := st.originCalls + 1 },
            fg := opEvents (h r), bg := [] }
      else if obj.found ∧ now < obj.expires then
        { state := tickHit m st,
          fg := exposureEvents m "HIT" ++ sendResponse obj, bg := [] }
      else if obj.found ∧ 0 < req.staleWhileRevalidate ∧
          now < obj.expires + req.staleWhileRevalidate then
        let out := handleBackendResponse m h r now timedOut reqHash req
          objHash obj true (tickStale m st)
        { state := out.1, fg := exposureEvents m "STALE" ++ sendResponse obj,
          bg := out.2 }
      else
        let out := handleBackendResponse m h r now timedOut reqHash req
          objHash obj false st
        { state := out.1, fg := out.2, bg := [] }

/-! Embedding of Start and Stop (the monitor loop). -/

/-- MonitorProc records whether Start spawned the monitor loop goroutine,
the only receiver of the stopMonitor channel. -/
structure MonitorProc where
  loopRunning : Bool
  deriving Repr, DecidableEq

/-- Embedding of Start (lines 371-388): the stopMonitor channel is created,
and the goroutine selecting on it is spawned only when a Monitor is
configured. -/
def startEngine (hasMonitor : Bool) : MonitorProc :=
  { loopRunning := hasMonitor }

/-- Embedding of Stop (lines 391-393): Stop performs a blocking send on the
unbuffered stopMonitor channel.  An unbuffered channel send completes
exactly when another goroutine receives from the channel, and the monitor
loop spawned by Start is the only receiver, so the send completes iff that
loop is running (when it is, its select eventually takes the stopMonitor
case and the loop returns, so the send also synchronises with loop
termination). -/
def stopCompletes (p : MonitorProc) : Bool :=
  p.loopRunning

/-! Interleaving model of the collapsed-forwarding path.  Each thread runs
the Middleware body for one GET request (no upgrade, driver present,
CollapsedForwarding enabled) against the shared engine state.  Atomic steps
are chosen at the shared-state touch points of the source; the code a
thread runs between two touch points is folded into the step that ends it.
The backend section is split so that the origin handler execution is a
separate step and in-flight origin calls are observable. -/

/-- Program counter of one request thread through the Middleware body. -/
inductive TPC where
  | fetch
  | check
  | gate
  | acquire
  | reread
  | lookup
  | act
  | beRun
  | beEnd
  | unlockA
  | unlockB
  | done
  deriving Repr, DecidableEq

/-- Thread-local state: the program counter plus the local variables of the
Middleware body (req, obj, objHash, beres), the mutex the thread looked up
or created in the collapse map, and ghost observation fields. -/
structure Thread where
  pc : TPC
  req : RequestOpts
  obj : Response
  objHash : String
  myMutex : Nat
  beres : Response
  didOrigin : Bool
  observedHit : Bool
  observed : List ClientEv

/-- Global state of the interleaving model: the shared engine state, the
per-thread states, and the collapse map for the one request key in play,
modelled as an optional current mutex id (entry), a fresh-id counter (gen),
and a holder map for every mutex id ever created. -/
structure CState (n : Nat) where
  engine : EngineState
  threads : Fin n → Thread
  gen : Nat
  entry : Option Nat
  mheld : Nat → Option (Fin n)

/-- Replacement of one thread state. -/
def updThread {n : Nat} (s : CState n) (i : Fin n) (t : Thread) : CState n :=
  { s with threads := Function.update s.threads i t }

/-- CStep is one atomic step of one thread.  Constructors mirror, in order:
the initial GetRequestOpts (line 172); the nocache hard passthrough (lines
175-181); the collapse map lookup-or-insert under the meta mutex (lines
186-193); the per-key mutex acquisition (line 195); the re-read of the
request options after acquisition (lines 202-204); the object lookup
(lines 207-216); the fresh-hit, stale-while-revalidate and miss branches
(lines 237-264), the miss branch decomposed into the backend tick plus
handler execution and the rest of handleBackendResponse; and the deferred
unlock followed by the collapse map delete (lines 196-201). -/
inductive CStep (m : MCConfig) (h : Handler) (r : Request) (now : Int)
    {n : Nat} : CState n → CState n → Prop where
  | fetch (s : CState n) (i : Fin n)
      (hpc : (s.threads i).pc = TPC.fetch) :
      CStep m h r now s (updThread s i
        { (s.threads i) with
          pc := TPC.check
          req := s.engine.requestOpts (getRequestHash m r) })
  | checkNocache (s : CState n) (i : Fin n)
      (hpc : (s.threads i).pc = TPC.check)
      (hnc : (s.threads i).req.nocache = true) :
      CStep m h r now s
        { (updThread s i { (s.threads i) with
            pc := TPC.done
            observed := opEvents (h r) }) with
          engine := { (tickMiss m s.engine) with
            originCalls := s.engine.originCalls + 1 } }
  | checkGo (s : CState n) (i : Fin n)
      (hpc : (s.threads i).pc = TPC.check)
      (hnc : (s.threads i).req.nocache = false) :
      CStep m h r now s (updThread s i { (s.threads i) with pc := TPC.gate })
  | gateJoin (s : CState n) (i : Fin n) (g : Nat)
      (hpc : (s.threads i).pc = TPC.gate)
      (he : s.entry = some g) :
      CStep m h r now s (updThread s i
        { (s.threads i) with pc := TPC.acquire, myMutex := g })
  | gateCreate (s : CState n) (i : Fin n)
      (hpc : (s.threads i).pc = TPC.gate)
      (he : s.entry = none) :
      CStep m h r now s
        { (updThread s i { (s.threads i) with
            pc := TPC.acquire
            myMutex := s.gen }) with
          gen := s.gen + 1
          entry := some s.gen }
  | acquire (s : CState n) (i : Fin n)
      (hpc : (s.threads i).pc = TPC.acquire)
      (hfree : s.mheld (s.threads i).myMutex = none) :
      CStep m h r now s
        { (updThread s i { (s.threads i) with pc := TPC.reread }) with
          mheld := Function.update s.mheld (s.threads i).myMutex (some i) }
  | reread (s : CState n) (i : Fin n)
      (hpc : (s.threads i).pc = TPC.reread) :
      CStep m h r now s (updThread s i
        { (s.threads i) with
          pc := TPC.lookup
          req := if (s.threads i).req.found then (s.threads i).req
            else s.engine.requestOpts (getRequestHash m r) })
  | lookup (s : CState n) (i : Fin n)
      (hpc : (s.threads i).pc = TPC.lookup) :
      CStep m h r now s (updThread s i
        { (s.threads i) with
          pc := TPC.act
          objHash := if (s.threads i).req.found then
            (s.threads i).req.getObjectHash (getRequestHash m r) r else ""
          obj := if (s.threads i).req.found then
            s.engine.objects
              ((s.threads i).req.getObjectHash (getRequestHash m r) r)
            else emptyResponse })
  | actHit (s : CState n) (i : Fin n)
      (hpc : (s.threads i).pc = TPC.act)
      (hfresh : (s.threads i).obj.found = true ∧ now < (s.threads i).obj.expires) :
      CStep m h r now s
        { (updThread s i { (s.threads i) with
            pc := TPC.unlockA
            observedHit := true
            observed := exposureEvents m "HIT" ++ sendResponse (s.threads i).obj })
          with engine := tickHit m s.engine }
  | actSwr (s : CState n) (i : Fin n)
      (hpc : (s.threads i).pc = TPC.act)
      (hnf : ¬((s.threads i).obj.found = true ∧ now < (s.threads i).obj.expires))
      (hswr : (s.threads i).obj.found = true ∧
        0 < (s.threads i).req.staleWhileRevalidate ∧
        now < (s.threads i).obj.expires + (s.threads i).req.staleWhileRevalidate) :
      CStep m h r now s
        { (updThread s i { (s.threads i) with
            pc := TPC.unlockA
            observedHit := false
            observed := exposureEvents m "STALE" ++ sendResponse (s.threads i).obj })
          with engine := (handleBackendResponse m h r now false
            (getRequestHash m r) (s.threads i).req (s.threads i).objHash
            (s.threads i).obj true (tickStale m s.engine)).1 }
  | actMiss (s : CState n) (i : Fin n)
      (hpc : (s.threads i).pc = TPC.act)
      (hnf : ¬((s.threads i).obj.found = true ∧ now < (s.threads i).obj.expires))
      (hnswr : ¬((s.threads i).obj.found = true ∧
        0 < (s.threads i).req.staleWhileRevalidate ∧
        now < (s.threads i).obj.expires + (s.threads i).req.staleWhileRevalidate)) :
      CStep m h r now s
        { (updThread s i { (s.threads i) with
            pc := TPC.beRun
            didOrigin := true }) with
          engine := { (tickBackend m s.engine) with
            originCalls := s.engine.originCalls + 1 } }
  | beRun (s : CState n) (i : Fin n)
      (hpc : (s.threads i).pc = TPC.beRun) :
      CStep m h r now s (updThread s i
        { (s.threads i) with
          pc := TPC.beEnd
          beres := execBackend m h r false })
  | beEnd (s : CState n) (i : Fin n)
      (hpc : (s.threads i).pc = TPC.beEnd) :
      CStep m h r now s
        { (updThread s i { (s.threads i) with
            pc := TPC.unlockA
            observed := (backendFinish m r now (getRequestHash m r)
              (s.threads i).req (s.threads i).objHash (s.threads i).obj
              (s.threads i).beres false s.engine).2 })
          with engine := (backendFinish m r now (getRequestHash m r)
            (s.threads i).req (s.threads i).objHash (s.threads i).obj
            (s.threads i).beres false s.engine).1 }
  | unlockA (s : CState n) (i : Fin n)
      (hpc : (s.threads i).pc = TPC.unlockA) :
      CStep m h r now s
        { (updThread s i { (s.threads i) with pc := TPC.unlockB }) with
          mheld := Function.update s.mheld (s.threads i).myMutex none }
  | unlockB (s : CState n) (i : Fin n)
      (hpc : (s.threads i).pc = TPC.unlockB) :
      CStep m h r now s
        { (updThread s i { (s.threads i) with pc := TPC.done }) with
          entry := none }

/-- Initial per-thread state: about to perform the options fetch, all
locals at their zero values. -/
def initThread : Thread :=
  { pc := TPC.fetch, req := zeroOpts, obj := emptyResponse, objHash := "",
    myMutex := 0, beres := emptyResponse, didOrigin := false,
    observedHit := false, observed := [] }

/-- Initial engine state: a cold cache with both driver maps empty and all
counters zero. -/
def initEngine : EngineState :=
  { requestOpts := fun _ => zeroOpts, objects := fun _ => emptyResponse,
    revalidating := fun _ => false, hits := 0, misses := 0, stales := 0,
    backends := 0, errors := 0, originCalls := 0 }

/-- Initial global state for n concurrent first-time requests on a cold
cache: empty collapse map, no mutex held. -/
def initCState (n : Nat) : CState n :=
  { engine := initEngine, threads := fun _ => initThread, gen := 0,
    entry := none, mheld := fun _ => none }

/-- Reachability from the cold start under any interleaving. -/
inductive CReach (m : MCConfig) (h : Handler) (r : Request) (now : Int)
    {n : Nat} : CState n → Prop where
  | init : CReach m h r now (initCState n)
  | step {s s' : CState n} : CReach m h r now s → CStep m h r now s s' →
      CReach m h r now s'

/-- A thread whose origin call is in flight: it sits between the backend
tick and the completion of handleBackendResponse. -/
def inFlight {n : Nat} (s : CState n) (i : Fin n) : Prop :=
  (s.threads i).pc = TPC.beRun ∨ (s.threads i).pc = TPC.beEnd

/-- The backend response of the scenario: what the origin handler writes
into a fresh buffer (no timeout configured). -/
def scBeres (m : MCConfig) (h : Handler) (r : Request) : Response :=
  execBackend m h r false

/-- The request options resolved and persisted by the first completed
backend call of the scenario. -/
def scOpts (m : MCConfig) (h : Handler) (r : Request) : RequestOpts :=
  buildRequestOpts m (scBeres m h r) r

/-- The object key derived from the resolved options of the scenario. -/
def scObjHash (m : MCConfig) (h : Handler) (r : Request) : String :=
  (scOpts m h r).getObjectHash (getRequestHash m r) r

/-- The cached response object produced by the first completed backend call
of the scenario. -/
def scStored (m : MCConfig) (h : Handler) (r : Request) (now : Int) :
    Response :=
  compressIf m { (scBeres m h r) with
    found := true
    expires := now + (scOpts m h r).ttl }

/-! Trace model of the background revalidation single-flight set.  States
abstract the engine to the revalidating set plus a ghost count of the
revalidations currently in flight per object key; steps are the gate and
the release embedded above, scheduled in any order. -/

/-- RevState: the single-flight set together with a ghost in-flight
counter. -/
structure RevState where
  reval : String → Bool
  inflightRev : String → Nat

/-- Initial revalidation state: nothing reserved, nothing in flight. -/
def revInit : RevState :=
  { reval := fun _ => false, inflightRev := fun _ => 0 }

/-- RevStep: a background revalidation for key k either passes the dedupe
gate and becomes in flight, or the gate turns it away unchanged (the
abandoning return happens before the backend tick and the origin handler
run), or an in-flight revalidation completes and performs the release. -/
inductive RevStep : RevState → RevState → Prop where
  | enter (s : RevState) (k : String)
      (hgo : (revalidateGate k s.reval).1 = true) :
      RevStep s { reval := (revalidateGate k s.reval).2
                  inflightRev := fun j => if j = k then s.inflightRev j + 1
                    else s.inflightRev j }
  | abandon (s : RevState) (k : String)
      (hstop : (revalidateGate k s.reval).1 = false) :
      RevStep s { reval := (revalidateGate k s.reval).2
                  inflightRev := s.inflightRev }
  | finish (s : RevState) (k : String)
      (hin : 0 < s.inflightRev k) :
      RevStep s { reval := revalidateRelease k s.reval
                  inflightRev := fun j => if j = k then s.inflightRev j - 1
                    else s.inflightRev j }

/-- Reachability of revalidation states from the idle engine. -/
inductive RevReach : RevState → Prop where
  | init : RevReach revInit
  | step {s s' : RevState} : RevReach s → RevStep s s' → RevReach s'

/-- Validity bound on WriteHeader codes enforced by net/http (and asserted
verbatim by the batchGet helper of the microcache test suite): codes
outside [100, 999] make WriteHeader panic. -/
def validWriteHeaderCode (code : Int) : Bool :=
  decide (100 ≤ code) && decide (code ≤ 999)

/-! Concrete fixtures used by counterexamples and witnesses. -/

/-- A minimal configuration: LRU-style driver present, monitor attached,
no compressor, exposure on, nothing else special. -/
def baseConfig : MCConfig :=
  { nocache := false, timeout := 0, ttl := 30, staleIfError := 0,
    staleRecache := false, staleWhileRevalidate := 0, hashQuery := false,
    collapsedForwarding := false, vary := [], queryIgnore := none,
    exposed := true, hasDriver := true, hasMonitor := true,
    hasCompressor := false, compress := id, expand := id }

/-- A plain GET request for the root path. -/
def getRoot : Request :=
  { method := "GET", path := "/", rawQuery := "", queryEnum := [],
    headerGetR := fun _ => "", connectionUpgrade := false }

/-- Configuration with HashQuery on and a non-nil QueryIgnore set that
ignores nothing, as allowed by the spec. -/
def hashQueryConfig : MCConfig :=
  { baseConfig with hashQuery := true, queryIgnore := some (fun _ => false) }

/-- A request whose query map enumerates as a then b. -/
def reqEnumAB : Request :=
  { getRoot with
    rawQuery := "a=1&b=2"
    queryEnum := [("a", ["1"]), ("b", ["2"])] }

/-- The same request when the Go runtime enumerates its query map as b
then a. -/
def reqEnumBA : Request :=
  { reqEnumAB with queryEnum := [("b", ["2"]), ("a", ["1"])] }

/-! Invariant of the collapsed-forwarding interleaving model. -/

/-- Program counters inside the critical section guarded by the per-key
mutex (from acquisition until the deferred unlock). -/
def inCrit (pc : TPC) : Prop :=
  pc = TPC.reread ∨ pc = TPC.lookup ∨ pc = TPC.act ∨ pc = TPC.beRun ∨
  pc = TPC.beEnd ∨ pc = TPC.unlockA

instance (pc : TPC) : Decidable (inCrit pc) := by
  unfold inCrit; infer_instance

/-- Program counters at which a thread has already served its reply. -/
def donePC (pc : TPC) : Prop :=
  pc = TPC.unlockA ∨ pc = TPC.unlockB ∨ pc = TPC.done

instance (pc : TPC) : Decidable (donePC pc) := by
  unfold donePC; infer_instance

/-- Count of threads satisfying a decidable predicate. -/
def crd {n : Nat} (p : Fin n → Prop) [DecidablePred p] : Nat :=
  (Finset.univ.filter p).card

/-- Scn bundles the scenario hypotheses of the collapsed-forwarding claim:
collapsed forwarding on, a monitor attached, and a cacheable origin answer
(2xx/3xx, not nocache after policy resolution) whose stored object is found
and still fresh at the burst time now. -/
structure Scn (m : MCConfig) (h : Handler) (r : Request) (now : Int) :
    Prop where
  cf : m.collapsedForwarding = true
  mon : m.hasMonitor = true
  succ2 : 200 ≤ (scBeres m h r).status
  succ4 : (scBeres m h r).status < 400
  ofound : (scOpts m h r).found = true
  onc : (scOpts m h r).nocache = false
  sfound : (scStored m h r now).found = true
  sfresh : now < (scStored m h r now).expires

/-- The object at the scenario object key is present in the driver. -/
def storedNow (m : MCConfig) (h : Handler) (r : Request) {n : Nat}
    (s : CState n) : Prop :=
  (s.engine.objects (scObjHash m h r)).found = true

instance (m : MCConfig) (h : Handler) (r : Request) {n : Nat}
    (s : CState n) : Decidable (storedNow m h r s) := by
  unfold storedNow; infer_instance

/-- Per-thread invariant core, by program counter: flag discipline, what
the thread-local request options and object may be, lock possession inside
the critical section (the held argument) and the relation to the driver
contents (the stored argument). -/
def ThreadOKCore (m : MCConfig) (h : Handler) (r : Request) (now : Int)
    (t : Thread) (held : Prop) (stored : Prop) : Prop :=
  match t.pc with
  | TPC.fetch => t.didOrigin = false ∧ t.observedHit = false
  | TPC.check => t.didOrigin = false ∧ t.observedHit = false ∧
      (t.req = zeroOpts ∨ (t.req = scOpts m h r ∧ stored))
  | TPC.gate => t.didOrigin = false ∧ t.observedHit = false ∧
      (t.req = zeroOpts ∨ (t.req = scOpts m h r ∧ stored))
  | TPC.acquire => t.didOrigin = false ∧ t.observedHit = false ∧
      (t.req = zeroOpts ∨ (t.req = scOpts m h r ∧ stored))
  | TPC.reread => t.didOrigin = false ∧ t.observedHit = false ∧
      (t.req = zeroOpts ∨ (t.req = scOpts m h r ∧ stored)) ∧ held
  | TPC.lookup => t.didOrigin = false ∧ t.observedHit = false ∧ held ∧
      ((t.req = scOpts m h r ∧ stored) ∨ (t.req = zeroOpts ∧ ¬stored))
  | TPC.act => t.didOrigin = false ∧ t.observedHit = false ∧ held ∧
      ((t.req = scOpts m h r ∧ t.objHash = scObjHash m h r ∧
          t.obj = scStored m h r now ∧ stored) ∨
        (t.req = zeroOpts ∧ t.obj = emptyResponse ∧ ¬stored))
  | TPC.beRun => t.didOrigin = true ∧ t.observedHit = false ∧ held ∧
      t.req = zeroOpts ∧ t.obj = emptyResponse ∧ ¬stored
  | TPC.beEnd => t.didOrigin = true ∧ t.observedHit = false ∧ held ∧
      t.req = zeroOpts ∧ t.obj = emptyResponse ∧
      t.beres = scBeres m h r ∧ ¬stored
  | TPC.unlockA => held ∧ stored ∧
      ((t.didOrigin = true ∧ t.observedHit = false) ∨
        (t.didOrigin = false ∧ t.observedHit = true ∧
          t.observed = exposureEvents m "HIT" ++
            sendResponse (scStored m h r now)))
  | TPC.unlockB => stored ∧
      ((t.didOrigin = true ∧ t.observedHit = false) ∨
        (t.didOrigin = false ∧ t.observedHit = true ∧
          t.observed = exposureEvents m "HIT" ++
            sendResponse (scStored m h r now)))
  | TPC.done => stored ∧
      ((t.didOrigin = true ∧ t.observedHit = false) ∨
        (t.didOrigin = false ∧ t.observedHit = true ∧
          t.observed = exposureEvents m "HIT" ++
            sendResponse (scStored m h r now)))

/-- Per-thread invariant: the core instantiated with the actual lock
possession and driver facts of the global state. -/
def ThreadOK (m : MCConfig) (h : Handler) (r : Request) (now : Int)
    {n : Nat} (s : CState n) (i : Fin n) : Prop :=
  ThreadOKCore m h r now (s.threads i)
    (s.mheld (s.threads i).myMutex = some i) (storedNow m h r s)

/-- Additional per-thread bound: a thread at the acquire counter refers to
a mutex id the gate really handed out. -/
def AcquireLt {n : Nat} (s : CState n) (i : Fin n) : Prop :=
  (s.threads i).pc = TPC.acquire → (s.threads i).myMutex < s.gen

/-- Global invariant of the interleaving model under the scenario. -/
structure CInv (m : MCConfig) (h : Handler) (r : Request) (now : Int)
    {n : Nat} (s : CState n) : Prop where
  thread : ∀ i, ThreadOK m h r now s i
  acquire_lt : ∀ i, AcquireLt s i
  held_inv : ∀ g i, s.mheld g = some i →
    (s.threads i).myMutex = g ∧ inCrit (s.threads i).pc
  gen_fresh : ∀ g, s.gen ≤ g → s.mheld g = none
  entry_lt : ∀ g, s.entry = some g → g < s.gen
  prestore : ¬storedNow m h r s →
    ((s.gen = 0 ∧ s.entry = none) ∨ (s.gen = 1 ∧ s.entry = some 0))
  opts_inv :
    (s.engine.requestOpts (getRequestHash m r) = zeroOpts ∧
      ¬storedNow m h r s) ∨
    (s.engine.requestOpts (getRequestHash m r) = scOpts m h r ∧
      storedNow m h r s)
  objects_OH : s.engine.objects (scObjHash m h r) = emptyResponse ∨
    s.engine.objects (scObjHash m h r) = scStored m h r now
  uniq_origin : ∀ i j, (s.threads i).didOrigin = true →
    (s.threads j).didOrigin = true → i = j
  cnt_origin : s.engine.originCalls =
    crd (fun i => (s.threads i).didOrigin = true)
  cnt_backends : s.engine.backends = s.engine.originCalls
  cnt_hits : s.engine.hits = crd (fun i => (s.threads i).observedHit = true)
  cnt_misses : s.engine.misses = crd (fun i =>
    (s.threads i).didOrigin = true ∧ donePC (s.threads i).pc)
  cnt_stales : s.engine.stales = 0
  cnt_errors : s.engine.errors = 0
  stored_wit : storedNow m h r s → ∃ i,
    (s.threads i).didOrigin = true ∧ donePC (s.threads i).pc

/-- Request options as cached for the C1 witness scenario. -/
def c1Opts : RequestOpts := { zeroOpts with found := true, ttl := 30 }

/-- Cached object for the C1 witness scenario, expiring at 100. -/
def c1Obj : Response :=
  { found := true, expires := 100, status := 200, header := [], body := "x" }

/-- Engine state holding the C1 witness object under the key of the root
GET request. -/
def c1State : EngineState :=
  { initEngine with
    requestOpts := fupd (fun _ => zeroOpts) "/" c1Opts
    objects := fupd (fun _ => emptyResponse) "/" c1Obj }

/-- An origin handler answering 200 with body done. -/
def okHandler : Handler :=
  fun _ => [WriterOp.writeHeader 200, WriterOp.write "done"]

/-- A failing origin handler answering 500. -/
def failHandler : Handler :=
  fun _ => [WriterOp.writeHeader 500, WriterOp.write "fail"]

/-- Request options for the C5 witness: found, ttl 30, stale-if-error 600,
stale-recache on. -/
def c5Req : RequestOpts :=
  { zeroOpts with
    found := true
    ttl := 30
    staleIfError := 600
    staleRecache := true }

/-- Cached object for the C5 witness, expired at 100. -/
def c5Obj : Response :=
  { found := true, expires := 100, status := 200, header := [], body := "old" }

/-- baseConfig with global collapsed forwarding enabled, for the
single-flight scenario. -/
def cfConfig : MCConfig :=
  { baseConfig with collapsedForwarding := true }

end Microcache

namespace Microcache

/-! Helper lemmas about the embedded operations. -/

theorem tickMiss_objects (m : MCConfig) (st : EngineState) :
    (tickMiss m st).objects = st.objects := by
  unfold tickMiss; split <;> rfl

theorem tickHit_objects (m : MCConfig) (st : EngineState) :
    (tickHit m st).objects = st.objects := by
  unfold tickHit; split <;> rfl

theorem ptwFinalStatus_eq_zero (ops : List WriterOp) : ptwFinalStatus ops = 0 := by
  unfold ptwFinalStatus
  have hfold : ∀ (l : List WriterOp) (p : PassthroughWriter),
      (l.foldl (fun (p : PassthroughWriter) op =>
        match op with
        | WriterOp.writeHeader code =>
            (fun _ => p) (passthroughWriteHeader p code)
        | _ => p) p) = p := by
    intro l
    induction l with
    | nil => intro p; rfl
    | cons a l ih =>
        intro p
        cases a <;> simpa using ih p
  rw [hfold]

theorem sendResponse_ignores_cache_fields (res : Response) (b : Bool) (e : Int) :
    sendResponse { res with found := b, expires := e } = sendResponse res := rfl

/-! Claim C10.  A background revalidation never writes to the client. -/

/-- C10: for every backend-path invocation with revalidating set, every
client-facing effect is skipped: the event list handleBackendResponse
produces for the downstream writer is empty, whether the dedupe gate
abandons the call or the revalidation runs to completion. -/
theorem background_revalidation_writes_nothing (m : MCConfig) (h : Handler)
    (r : Request) (now : Int) (timedOut : Bool) (reqHash : String)
    (req : RequestOpts) (objHash : String) (obj : Response)
    (st : EngineState) :
    (handleBackendResponse m h r now timedOut reqHash req objHash obj true
      st).2 = [] := by
  by_cases hg : (revalidateGate objHash st.revalidating).1 = false
  · simp [handleBackendResponse, hg]
  · by_cases he : 500 ≤ (execBackend m h r timedOut).status ∧ obj.found = true
    · simp [handleBackendResponse, backendFinish, backendSuccessAndRender,
        hg, he]
    · simp [handleBackendResponse, backendFinish, backendSuccessAndRender,
        hg, he]

/-! Claim C9.  Stop only terminates when the monitor loop exists. -/

/-- C9 (refuting evaluation): with a Monitor configured the Stop send is
received by the monitor loop and completes, but after a Start with no
Monitor attached no goroutine ever receives from the unbuffered stopMonitor
channel, so the send in Stop blocks forever, contradicting the claim that
Stop always terminates. -/
theorem stop_without_monitor_never_completes :
    stopCompletes (startEngine true) = true ∧
    stopCompletes (startEngine false) = false := by
  decide

/-! Claim C8.  A handler that writes a body but never calls WriteHeader. -/

/-- C8 (refuting evaluation): when the origin handler only writes a body,
the buffered response keeps status 0, not the implicit 200 the claim and
the test suite demand, and the replay emits WriteHeader(0), which the
net/http validity check copied into the repository test suite rejects with
a panic. -/
theorem missing_writeheader_replays_status_zero :
    (runOps [WriterOp.write "ok"] emptyResponse).status = 0 ∧
    (runOps [WriterOp.write "ok"] emptyResponse).status ≠ 200 ∧
    ClientEv.writeStatus 0 ∈
      sendResponse (runOps [WriterOp.write "ok"] emptyResponse) ∧
    validWriteHeaderCode (runOps [WriterOp.write "ok"] emptyResponse).status
      = false := by
  decide

/-! Claim C2.  The request key and the query map enumeration order. -/

/-- C2 (refuting evaluation): with HashQuery on and a non-nil QueryIgnore
set, the request key is built by ranging over the Go query map, whose
enumeration order is unspecified and varies between evaluations.  The two
fixtures below are the same request presented in the two possible orders
(their query maps are permutations of each other and path, raw query and
headers agree), yet the derived keys differ, so the key is not a function
of the (path, selected-headers, selected-query) tuple. -/
theorem request_hash_depends_on_query_map_order :
    List.Perm reqEnumAB.queryEnum reqEnumBA.queryEnum ∧
    reqEnumAB.path = reqEnumBA.path ∧
    reqEnumAB.rawQuery = reqEnumBA.rawQuery ∧
    reqEnumAB.method = reqEnumBA.method ∧
    getRequestHash hashQueryConfig reqEnumAB ≠
      getRequestHash hashQueryConfig reqEnumBA := by
  refine ⟨?_, rfl, rfl, rfl, by decide⟩
  decide

/-! Claim C7.  Reserved prefix stripping on replay. -/

theorem sendResponse_fold_append (hs : HeaderMap) (acc : List ClientEv) :
    hs.foldl (fun acc kv =>
        if hasPrefixStr kv.1 "Microcache-" then acc
        else acc ++ kv.2.map (fun v => ClientEv.addHeader kv.1 v)) acc
    = acc ++ hs.foldl (fun acc kv =>
        if hasPrefixStr kv.1 "Microcache-" then acc
        else acc ++ kv.2.map (fun v => ClientEv.addHeader kv.1 v)) [] := by
  induction hs generalizing acc with
  | nil => simp
  | cons kv t ih =>
      simp only [List.foldl_cons]
      rw [ih, ih (if hasPrefixStr kv.1 "Microcache-" then []
        else [] ++ kv.2.map (fun v => ClientEv.addHeader kv.1 v))]
      by_cases hp : hasPrefixStr kv.1 "Microcache-" = true
      · simp [hp]
      · simp [hp, List.append_assoc]

theorem sendResponse_fold_eq (hs : HeaderMap) :
    hs.foldl (fun acc kv =>
        if hasPrefixStr kv.1 "Microcache-" then acc
        else acc ++ kv.2.map (fun v => ClientEv.addHeader kv.1 v)) []
    = (hs.filter (fun kv => !hasPrefixStr kv.1 "Microcache-")).flatMap
        (fun kv => kv.2.map (fun v => ClientEv.addHeader kv.1 v)) := by
  induction hs with
  | nil => rfl
  | cons kv t ih =>
      rw [List.foldl_cons, sendResponse_fold_append]
      by_cases hp : hasPrefixStr kv.1 "Microcache-" = true
      · simp [hp, ih]
      · simp [hp, ih]

/-- C7 counterexample: a stored response header whose key carries the
reserved prefix in its lowercase spelling (reachable in Go through a direct
header map write) is forwarded by sendResponse, although the claim says no
header beginning with the reserved prefix microcache- may reach the
client. -/
theorem reserved_prefix_lowercase_forwarded :
    hasPrefixStr "microcache-token" "microcache-" = true ∧
    ClientEv.addHeader "microcache-token" "1" ∈ sendResponse
      { found := true, expires := 0, status := 200,
        header := [("microcache-token", ["1"])], body := "b" } := by
  constructor
  · decide
  · simp [sendResponse]
    decide

/-- C7 amended: replay strips exactly the header keys that begin with
Microcache-, the canonical MIME spelling of the reserved prefix (the
spelling every header set through the standard header API gets); keys
carrying the prefix in any other capitalisation are forwarded.  Every value
of every other stored header is forwarded, followed by the stored status
and the stored body. -/
theorem sendResponse_strips_reserved_keys (res : Response) :
    (∀ k v, ClientEv.addHeader k v ∈ sendResponse res ↔
      (hasPrefixStr k "Microcache-" = false ∧
        ∃ vs, (k, vs) ∈ res.header ∧ v ∈ vs)) ∧
    ∃ pre, sendResponse res =
        pre ++ [ClientEv.writeStatus res.status, ClientEv.writeBody res.body] ∧
      ∀ ev ∈ pre, ∃ k v, ev = ClientEv.addHeader k v ∧
        hasPrefixStr k "Microcache-" = false := by
  constructor
  · intro k v
    unfold sendResponse
    rw [List.mem_append, sendResponse_fold_eq]
    constructor
    · rintro (hmem | hmem)
      · rw [List.mem_flatMap] at hmem
        obtain ⟨kv, hkv, hv⟩ := hmem
        rw [List.mem_filter] at hkv
        rw [List.mem_map] at hv
        obtain ⟨w, hw, hev⟩ := hv
        have hk : kv.1 = k := by
          injection hev
        have hvw : w = v := by
          injection hev
        refine ⟨?_, kv.2, ?_, ?_⟩
        · rw [← hk]
          have := hkv.2
          simpa using this
        · rw [← hk]
          exact hkv.1
        · rw [← hvw]; exact hw
      · simp at hmem
    · rintro ⟨hk, vs, hvs, hv⟩
      refine Or.inl ?_
      rw [List.mem_flatMap]
      refine ⟨(k, vs), ?_, ?_⟩
      · rw [List.mem_filter]
        exact ⟨hvs, by simp [hk]⟩
      · rw [List.mem_map]
        exact ⟨v, hv, rfl⟩
  · refine ⟨_, rfl, ?_⟩
    intro ev hmem
    rw [sendResponse_fold_eq, List.mem_flatMap] at hmem
    obtain ⟨kv, hkv, hv⟩ := hmem
    rw [List.mem_filter] at hkv
    rw [List.mem_map] at hv
    obtain ⟨w, _, hev⟩ := hv
    refine ⟨kv.1, w, hev.symm, ?_⟩
    have := hkv.2
    simpa using this

/-- C7 amended witness: a non-reserved header value forwarded by replay,
obtained by applying the amended theorem at a concrete response. -/
theorem sendResponse_strips_reserved_keys_witness :
    ClientEv.addHeader "X-A" "7" ∈ sendResponse
      { found := true, expires := 0, status := 200,
        header := [("X-A", ["7"])], body := "b" } :=
  ((sendResponse_strips_reserved_keys
    { found := true, expires := 0, status := 200,
      header := [("X-A", ["7"])], body := "b" }).1 "X-A" "7").mpr
    ⟨by decide, ["7"], by decide, by decide⟩


/-! Claim C6.  Purge on unsafe methods. -/

/-- C6 (refuting theorem): for every configuration, every state and every
origin handler, a request whose method is neither GET nor HEAD leaves the
response map untouched: the purge can never fire, because the status
remembered by the passthrough writer is always 0 (its WriteHeader has a
value receiver), never inside [200, 400).  The claim and the HTTP
compliance comment in the source require a 2xx/3xx origin response to
remove the cached object. -/
theorem unsafe_method_never_purges (m : MCConfig) (h : Handler) (r : Request)
    (now : Int) (t : Bool) (st : EngineState)
    (h1 : r.method ≠ "GET") (h2 : r.method ≠ "HEAD") :
    (middleware m h r now t st).state.objects = st.objects := by
  by_cases hup : (r.connectionUpgrade = true ∨ ¬m.hasDriver = true)
  · simp only [middleware, if_pos hup]
    exact tickMiss_objects m st
  · by_cases hnc : (st.requestOpts (getRequestHash m r)).nocache = true
    · simp only [middleware, if_neg hup, if_pos hnc]
      exact tickMiss_objects m st
    · have hmeth : r.method ≠ "GET" ∧ r.method ≠ "HEAD" := ⟨h1, h2⟩
      simp only [middleware, if_neg hup, if_neg hnc, ite_self,
        if_pos hmeth, ptwFinalStatus_eq_zero]
      have hno : ¬((200 : Int) ≤ 0 ∧ (0 : Int) < 400) := by decide
      rw [if_neg hno]
      rw [ite_self]
      exact tickMiss_objects m st

/-- C6 witness: a POST for a key holding a cached object, with the origin
answering 204; the object survives. -/
theorem unsafe_method_never_purges_witness :
    ("POST" ≠ "GET" ∧ "POST" ≠ "HEAD") ∧
    (middleware baseConfig (fun _ => [WriterOp.writeHeader 204])
        { getRoot with method := "POST" } 0 false
        { initEngine with
          requestOpts := fupd (fun _ => zeroOpts) "/"
            { zeroOpts with found := true, ttl := 30 }
          objects := fupd (fun _ => emptyResponse) "/"
            { found := true, expires := 100, status := 200, header := [],
              body := "cached" } }).state.objects
      = ({ initEngine with
          requestOpts := fupd (fun _ => zeroOpts) "/"
            { zeroOpts with found := true, ttl := 30 }
          objects := fupd (fun _ => emptyResponse) "/"
            { found := true, expires := 100, status := 200, header := [],
              body := "cached" } } : EngineState).objects :=
  ⟨by decide,
    unsafe_method_never_purges baseConfig (fun _ => [WriterOp.writeHeader 204])
      { getRoot with method := "POST" } 0 false _ (by decide) (by decide)⟩

/-! Claim C1.  Fresh hits and expiry. -/

theorem bsar_miss_render (m : MCConfig) (r : Request) (now : Int)
    (reqHash : String) (req : RequestOpts) (objHash : String)
    (beres : Response) (st : EngineState) (hmon : m.hasMonitor = true) :
    (backendSuccessAndRender m r now reqHash req objHash beres false st).2
      = exposureEvents m "MISS" ++ sendResponse beres ∧
    (backendSuccessAndRender m r now reqHash req objHash beres false st).1.misses
      = st.misses + 1 ∧
    (backendSuccessAndRender m r now reqHash req objHash beres false st).1.hits
      = st.hits := by
  unfold backendSuccessAndRender
  dsimp only
  split_ifs <;>
    simp_all [tickMiss, driverSet, driverSetRequestOpts, sendResponse,
      exposureEvents]

theorem tickBackend_misses (m : MCConfig) (st : EngineState) :
    (tickBackend m st).misses = st.misses := by
  unfold tickBackend; split <;> rfl

theorem tickBackend_hits (m : MCConfig) (st : EngineState) :
    (tickBackend m st).hits = st.hits := by
  unfold tickBackend; split <;> rfl

theorem tickError_misses (m : MCConfig) (st : EngineState) :
    (tickError m st).misses = st.misses := by
  unfold tickError; split <;> rfl

theorem tickError_hits (m : MCConfig) (st : EngineState) :
    (tickError m st).hits = st.hits := by
  unfold tickError; split <;> rfl

theorem bfin_miss_render (m : MCConfig) (r : Request) (now : Int)
    (reqHash : String) (req : RequestOpts) (objHash : String)
    (obj beres : Response) (hmon : m.hasMonitor = true)
    (hsie : ¬(now < obj.expires + req.staleIfError)) (st : EngineState) :
    (backendFinish m r now reqHash req objHash obj beres false st).2
      = exposureEvents m "MISS" ++ sendResponse beres ∧
    (backendFinish m r now reqHash req objHash obj beres false st).1.misses
      = st.misses + 1 ∧
    (backendFinish m r now reqHash req objHash obj beres false st).1.hits
      = st.hits := by
  unfold backendFinish
  by_cases h5 : 500 ≤ beres.status ∧ obj.found = true
  · rw [if_pos h5]
    dsimp only
    have hc1 : ¬(req.found = true ∧ (now < obj.expires + req.staleIfError) ∧
        req.staleRecache = true) := fun hx => hsie hx.2.1
    have hc2 : ¬(¬(false = true) ∧ now < obj.expires + req.staleIfError) :=
      fun hx => hsie hx.2
    simp only [if_neg hc1, if_neg hc2]
    have hb := bsar_miss_render m r now reqHash req objHash beres
      (tickError m st) hmon
    exact ⟨hb.1, hb.2.1.trans (by rw [tickError_misses]),
      hb.2.2.trans (tickError_hits m st)⟩
  · rw [if_neg h5]
    exact bsar_miss_render m r now reqHash req objHash beres st hmon

theorem hbr_miss_render (m : MCConfig) (h : Handler) (r : Request)
    (now : Int) (t : Bool) (reqHash : String) (req : RequestOpts)
    (objHash : String) (obj : Response) (st : EngineState)
    (hmon : m.hasMonitor = true)
    (hsie : ¬(now < obj.expires + req.staleIfError)) :
    (handleBackendResponse m h r now t reqHash req objHash obj false st).2
      = exposureEvents m "MISS" ++ sendResponse (execBackend m h r t) ∧
    (handleBackendResponse m h r now t reqHash req objHash obj false st).1.misses
      = st.misses + 1 ∧
    (handleBackendResponse m h r now t reqHash req objHash obj false st).1.hits
      = st.hits := by
  unfold handleBackendResponse
  have hgate : ¬(false = true ∧
      (revalidateGate objHash st.revalidating).1 = false) := by simp
  rw [if_neg hgate]
  simp only [Bool.false_eq_true, if_false]
  have hb := bfin_miss_render m r now reqHash req objHash obj
    (execBackend m h r t) hmon hsie
    { (tickBackend m st) with
      originCalls := (tickBackend m st).originCalls + 1 }
  refine ⟨hb.1, hb.2.1.trans ?_, hb.2.2.trans ?_⟩
  · show (tickBackend m st).misses + 1 = st.misses + 1
    rw [tickBackend_misses]
  · exact tickBackend_hits m st

/-- C1: for a GET or HEAD request (not an upgrade, driver and monitor
present, cacheable options found), when the driver lookup returns a found
object whose expiry lies strictly after now, the middleware increments the
hit counter, emits the HIT exposure header when Exposed is on, replays the
stored status, headers and body, touches nothing else of the engine state
and does not invoke the origin handler; and when now has reached the
expiry, with the stale-while-revalidate and stale-if-error windows out of
effect, the stored object is not served: the request runs the backend path
and is rendered as a miss. -/
theorem fresh_hit_and_expired_miss (m : MCConfig) (h : Handler) (r : Request)
    (now : Int) (t : Bool) (st : EngineState)
    (req : RequestOpts) (objHash : String) (obj : Response)
    (hmeth : r.method = "GET" ∨ r.method = "HEAD")
    (hupg : r.connectionUpgrade = false)
    (hdrv : m.hasDriver = true)
    (hmon : m.hasMonitor = true)
    (hreqdef : req = st.requestOpts (getRequestHash m r))
    (hohdef : objHash = req.getObjectHash (getRequestHash m r) r)
    (hobjdef : obj = st.objects objHash)
    (hreq : req.found = true)
    (hnc : req.nocache = false)
    (hobj : obj.found = true) :
    (now < obj.expires →
      middleware m h r now t st =
        { state := { st with hits := st.hits + 1 },
          fg := exposureEvents m "HIT" ++ sendResponse obj, bg := [] } ∧
      (middleware m h r now t st).state.originCalls = st.originCalls) ∧
    (obj.expires ≤ now →
     (req.staleWhileRevalidate ≤ 0 ∨
       obj.expires + req.staleWhileRevalidate ≤ now) →
     obj.expires + req.staleIfError ≤ now →
      (middleware m h r now t st).fg =
        exposureEvents m "MISS" ++ sendResponse (execBackend m h r t) ∧
      (middleware m h r now t st).state.misses = st.misses + 1 ∧
      (middleware m h r now t st).state.hits = st.hits ∧
      (middleware m h r now t st).bg = []) := by
  subst hreqdef
  subst hohdef
  subst hobjdef
  have hup' : ¬(r.connectionUpgrade = true ∨ ¬m.hasDriver = true) := by
    simp [hupg, hdrv]
  have hnc' : ¬((st.requestOpts (getRequestHash m r)).nocache = true) := by
    simp [hnc]
  have hmeth' : ¬(r.method ≠ "GET" ∧ r.method ≠ "HEAD") := by
    rcases hmeth with hg | hh
    · simp [hg]
    · simp [hh]
  constructor
  · intro hfresh
    have hcond : ((if (st.requestOpts (getRequestHash m r)).found = true then
        st.objects ((st.requestOpts (getRequestHash m r)).getObjectHash
          (getRequestHash m r) r) else emptyResponse) : Response)
        = st.objects ((st.requestOpts (getRequestHash m r)).getObjectHash
          (getRequestHash m r) r) := by rw [if_pos hreq]
    constructor
    · simp only [middleware, if_neg hup', if_neg hnc', ite_self,
        if_neg hmeth', hreq, if_true, if_pos (And.intro hobj hfresh)]
      unfold tickHit
      simp [hmon]
    · simp only [middleware, if_neg hup', if_neg hnc', ite_self,
        if_neg hmeth', hreq, if_true, if_pos (And.intro hobj hfresh)]
      unfold tickHit
      simp [hmon]
  · intro hexp hswr hsie
    have hnf : ¬((st.objects ((st.requestOpts (getRequestHash m r)).getObjectHash
        (getRequestHash m r) r)).found = true ∧
        now < (st.objects ((st.requestOpts (getRequestHash m r)).getObjectHash
          (getRequestHash m r) r)).expires) := by
      rintro ⟨-, hlt⟩
      omega
    have hnswr : ¬((st.objects ((st.requestOpts (getRequestHash m r)).getObjectHash
        (getRequestHash m r) r)).found = true ∧
        0 < (st.requestOpts (getRequestHash m r)).staleWhileRevalidate ∧
        now < (st.objects ((st.requestOpts (getRequestHash m r)).getObjectHash
          (getRequestHash m r) r)).expires +
          (st.requestOpts (getRequestHash m r)).staleWhileRevalidate) := by
      rintro ⟨-, hpos, hlt⟩
      rcases hswr with hle | hle <;> omega
    have hsie' : ¬(now < (st.objects
        ((st.requestOpts (getRequestHash m r)).getObjectHash
          (getRequestHash m r) r)).expires +
        (st.requestOpts (getRequestHash m r)).staleIfError) := by omega
    have hout := hbr_miss_render m h r now t (getRequestHash m r)
      (st.requestOpts (getRequestHash m r))
      ((st.requestOpts (getRequestHash m r)).getObjectHash
        (getRequestHash m r) r)
      (st.objects ((st.requestOpts (getRequestHash m r)).getObjectHash
        (getRequestHash m r) r)) st hmon hsie'
    simp only [middleware, if_neg hup', if_neg hnc', ite_self,
      if_neg hmeth', hreq, if_true, if_neg hnf, if_neg hnswr]
    exact ⟨hout.1, hout.2.1, hout.2.2, trivial⟩

/-- C1 witness: at time 50 (before expiry 100) the cached object is
replayed as a hit, and at time 700 (past every window) the same request is
rendered as a miss from the backend. -/
theorem fresh_hit_and_expired_miss_witness :
    (middleware baseConfig okHandler getRoot 50 false c1State =
      { state := { c1State with hits := c1State.hits + 1 },
        fg := exposureEvents baseConfig "HIT" ++ sendResponse c1Obj,
        bg := [] }) ∧
    ((middleware baseConfig okHandler getRoot 700 false c1State).fg =
        exposureEvents baseConfig "MISS" ++
          sendResponse (execBackend baseConfig okHandler getRoot false) ∧
      (middleware baseConfig okHandler getRoot 700 false c1State).state.misses
        = c1State.misses + 1 ∧
      (middleware baseConfig okHandler getRoot 700 false c1State).state.hits
        = c1State.hits ∧
      (middleware baseConfig okHandler getRoot 700 false c1State).bg = []) :=
  ⟨((fresh_hit_and_expired_miss baseConfig okHandler getRoot 50 false c1State
      c1Opts "/" c1Obj (Or.inl rfl) rfl rfl rfl (by decide) (by decide)
      (by decide) (by decide) (by decide) (by decide)).1 (by decide)).1,
    (fresh_hit_and_expired_miss baseConfig okHandler getRoot 700 false c1State
      c1Opts "/" c1Obj (Or.inl rfl) rfl rfl rfl (by decide) (by decide)
      (by decide) (by decide) (by decide) (by decide)).2 (by decide)
      (Or.inl (by decide)) (by decide)⟩

/-! Claim C5.  The stale-if-error branch of the backend path. -/

theorem tickMiss_errors (m : MCConfig) (st : EngineState) :
    (tickMiss m st).errors = st.errors := by
  unfold tickMiss; split <;> rfl

theorem tickMiss_stales (m : MCConfig) (st : EngineState) :
    (tickMiss m st).stales = st.stales := by
  unfold tickMiss; split <;> rfl

theorem tickBackend_errors (m : MCConfig) (st : EngineState) :
    (tickBackend m st).errors = st.errors := by
  unfold tickBackend; split <;> rfl

theorem tickBackend_stales (m : MCConfig) (st : EngineState) :
    (tickBackend m st).stales = st.stales := by
  unfold tickBackend; split <;> rfl

theorem tickBackend_objects (m : MCConfig) (st : EngineState) :
    (tickBackend m st).objects = st.objects := by
  unfold tickBackend; split <;> rfl

theorem tickError_stales (m : MCConfig) (st : EngineState) :
    (tickError m st).stales = st.stales := by
  unfold tickError; split <;> rfl

theorem tickError_objects (m : MCConfig) (st : EngineState) :
    (tickError m st).objects = st.objects := by
  unfold tickError; split <;> rfl

theorem tickStale_errors (m : MCConfig) (st : EngineState) :
    (tickStale m st).errors = st.errors := by
  unfold tickStale; split <;> rfl

theorem tickStale_objects (m : MCConfig) (st : EngineState) :
    (tickStale m st).objects = st.objects := by
  unfold tickStale; split <;> rfl

theorem tickError_errors_inc (m : MCConfig) (st : EngineState)
    (hmon : m.hasMonitor = true) :
    (tickError m st).errors = st.errors + 1 := by
  unfold tickError; rw [if_pos hmon]

theorem tickStale_stales_inc (m : MCConfig) (st : EngineState)
    (hmon : m.hasMonitor = true) :
    (tickStale m st).stales = st.stales + 1 := by
  unfold tickStale; rw [if_pos hmon]

theorem fupd_self {α : Type} (f : String → α) (k : String) (v : α) :
    fupd f k v k = v := by
  unfold fupd; simp

theorem bsar_no_success (m : MCConfig) (r : Request) (now : Int)
    (reqHash : String) (req : RequestOpts) (objHash : String)
    (beres : Response) (reval : Bool) (st : EngineState)
    (hns : ¬(200 ≤ beres.status ∧ beres.status < 400)) :
    (backendSuccessAndRender m r now reqHash req objHash beres reval st).1.objects
      = st.objects ∧
    (backendSuccessAndRender m r now reqHash req objHash beres reval st).1.errors
      = st.errors ∧
    (backendSuccessAndRender m r now reqHash req objHash beres reval st).1.stales
      = st.stales := by
  unfold backendSuccessAndRender
  dsimp only
  have hc1 : ¬((200 ≤ beres.status ∧ beres.status < 400) ∧
      ¬req.found = true) := fun hx => hns hx.1
  simp only [if_neg hc1]
  have hc2 : ¬((200 ≤ beres.status ∧ beres.status < 400) ∧
      ¬req.nocache = true) := fun hx => hns hx.1
  simp only [if_neg hc2]
  split
  · exact ⟨tickMiss_objects m st, tickMiss_errors m st, tickMiss_stales m st⟩
  · exact ⟨rfl, rfl, rfl⟩

/-- C5: in the backend path (dedupe gate passed), when the origin response
has a 5xx status and a previously cached object exists: the error counter
is incremented; when the stale-if-error window is open and the options are
found with stale-recache on, the old object is written back through the
compressor with its expiry moved to now plus ttl; and when the window is
open on a foreground call, the stale counter is incremented and the old
object (not the origin failure) is replayed with the STALE exposure
header. -/
theorem stale_if_error_branch (m : MCConfig) (h : Handler) (r : Request)
    (now : Int) (t : Bool) (reqHash : String) (req : RequestOpts)
    (objHash : String) (obj : Response) (reval : Bool) (st : EngineState)
    (hmon : m.hasMonitor = true)
    (hgate : ¬(reval = true ∧ (revalidateGate objHash st.revalidating).1 = false))
    (h500 : 500 ≤ (execBackend m h r t).status)
    (hobj : obj.found = true) :
    (handleBackendResponse m h r now t reqHash req objHash obj reval st).1.errors
      = st.errors + 1 ∧
    ((now < obj.expires + req.staleIfError ∧ req.found = true ∧
        req.staleRecache = true) →
      (handleBackendResponse m h r now t reqHash req objHash obj reval
          st).1.objects objHash
        = compressIf m { obj with expires := now + req.ttl }) ∧
    ((now < obj.expires + req.staleIfError ∧ reval = false) →
      (handleBackendResponse m h r now t reqHash req objHash obj reval
          st).1.stales = st.stales + 1 ∧
      (handleBackendResponse m h r now t reqHash req objHash obj reval st).2
        = exposureEvents m "STALE" ++ sendResponse obj) := by
  have hns : ¬(200 ≤ (execBackend m h r t).status ∧
      (execBackend m h r t).status < 400) := by
    rintro ⟨-, hlt⟩
    omega
  unfold handleBackendResponse
  rw [if_neg hgate]
  dsimp only
  unfold backendFinish
  rw [if_pos (And.intro h500 hobj)]
  dsimp only
  by_cases hss : now < obj.expires + req.staleIfError
  · by_cases hrc : req.found = true ∧ req.staleRecache = true
    · rw [if_pos (And.intro hrc.1 (And.intro hss hrc.2)),
        if_pos (And.intro hrc.1 (And.intro hss hrc.2))]
      by_cases hrev : reval = true
      · subst hrev
        have hnstale : ¬(¬(true = true) ∧
            now < obj.expires + req.staleIfError) := by simp
        rw [if_neg hnstale]
        refine ⟨(bsar_no_success m r now reqHash req objHash
            (execBackend m h r t) true _ hns).2.1.trans ?_,
          fun _ => (congrFun (bsar_no_success m r now reqHash req objHash
            (execBackend m h r t) true _ hns).1 objHash).trans ?_,
          fun hx => absurd hx.2 (by simp)⟩
        · simp [tickError, tickBackend, driverSet, hmon]
        · simp [tickError, tickBackend, driverSet, fupd, hmon]
      · have hrev' : reval = false := by
          cases reval
          · rfl
          · exact absurd rfl hrev
        subst hrev'
        have hstale : (¬(false = true) ∧
            now < obj.expires + req.staleIfError) := ⟨by simp, hss⟩
        rw [if_pos hstale]
        refine ⟨?_, fun _ => ?_, fun _ => ⟨?_, ?_⟩⟩
        · simp [tickStale, tickError, tickBackend, driverSet, hmon]
        · simp [tickStale, tickError, tickBackend, driverSet, fupd, hmon]
        · simp [tickStale, tickError, tickBackend, driverSet, hmon]
        · rfl
    · have hnrc : ¬(req.found = true ∧
          (now < obj.expires + req.staleIfError) ∧
          req.staleRecache = true) := by
        rintro ⟨hf, -, hr⟩
        exact hrc ⟨hf, hr⟩
      rw [if_neg hnrc, if_neg hnrc]
      by_cases hrev : reval = true
      · subst hrev
        have hnstale : ¬(¬(true = true) ∧
            now < obj.expires + req.staleIfError) := by simp
        rw [if_neg hnstale]
        refine ⟨(bsar_no_success m r now reqHash req objHash
            (execBackend m h r t) true _ hns).2.1.trans ?_,
          fun hx => absurd ⟨hx.2.1, hx.2.2⟩ hrc,
          fun hx => absurd hx.2 (by simp)⟩
        simp [tickError, tickBackend, hmon]
      · have hrev' : reval = false := by
          cases reval
          · rfl
          · exact absurd rfl hrev
        subst hrev'
        have hstale : (¬(false = true) ∧
            now < obj.expires + req.staleIfError) := ⟨by simp, hss⟩
        rw [if_pos hstale]
        refine ⟨?_, fun hx => absurd ⟨hx.2.1, hx.2.2⟩ hrc,
          fun _ => ⟨?_, ?_⟩⟩
        · simp [tickStale, tickError, tickBackend, hmon]
        · simp [tickStale, tickError, tickBackend, hmon]
        · rfl
  · have hnrc : ¬(req.found = true ∧
        (now < obj.expires + req.staleIfError) ∧ req.staleRecache = true) :=
      fun hx => hss hx.2.1
    rw [if_neg hnrc, if_neg hnrc]
    have hnstale : ¬(¬(reval = true) ∧
        now < obj.expires + req.staleIfError) := fun hx => hss hx.2
    rw [if_neg hnstale]
    refine ⟨(bsar_no_success m r now reqHash req objHash
        (execBackend m h r t) reval _ hns).2.1.trans ?_,
      fun hx => absurd hx.1 hss, fun hx => absurd hx.1 hss⟩
    split <;> simp [tickError, tickBackend, hmon]

/-- C5 witness: at time 130, inside the stale-if-error window, a 5xx origin
answer increments the error counter, re-caches the old object with expiry
130 + 30, increments the stale counter and replays the old object. -/
theorem stale_if_error_branch_witness :
    (handleBackendResponse baseConfig failHandler getRoot 130 false "/"
        c5Req "/" c5Obj false initEngine).1.errors = initEngine.errors + 1 ∧
    (handleBackendResponse baseConfig failHandler getRoot 130 false "/"
        c5Req "/" c5Obj false initEngine).1.objects "/"
      = compressIf baseConfig { c5Obj with expires := 130 + c5Req.ttl } ∧
    (handleBackendResponse baseConfig failHandler getRoot 130 false "/"
        c5Req "/" c5Obj false initEngine).1.stales = initEngine.stales + 1 ∧
    (handleBackendResponse baseConfig failHandler getRoot 130 false "/"
        c5Req "/" c5Obj false initEngine).2
      = exposureEvents baseConfig "STALE" ++ sendResponse c5Obj := by
  have hth := stale_if_error_branch baseConfig failHandler getRoot 130 false
    "/" c5Req "/" c5Obj false initEngine rfl (by decide) (by decide)
    (by decide)
  exact ⟨hth.1, hth.2.1 (by decide), (hth.2.2 (by decide)).1,
    (hth.2.2 (by decide)).2⟩

/-! Claim C4.  Single-flight background revalidation. -/

/-- C4: at most one background revalidation is ever in flight per object
key.  First, along every schedule of gate entries and completions the
in-flight count per key never exceeds one and equals one exactly while the
key sits in the revalidating set; second, a backend-path call with
revalidating set for an already reserved key returns with the engine state
untouched and no client events, before the backend tick and the origin
run; third, a revalidation that did take the reservation (with found
request options, as on the stale-while-revalidate path) has released it
when handleBackendResponse returns. -/
theorem revalidation_single_flight (k : String) :
    (∀ s, RevReach s →
      s.inflightRev k ≤ 1 ∧ (s.reval k = true ↔ s.inflightRev k = 1)) ∧
    (∀ (m : MCConfig) (h : Handler) (r : Request) (now : Int) (t : Bool)
        (reqHash : String) (req : RequestOpts) (obj : Response)
        (est : EngineState), est.revalidating k = true →
      handleBackendResponse m h r now t reqHash req k obj true est
        = (est, [])) ∧
    (∀ (m : MCConfig) (h : Handler) (r : Request) (now : Int) (t : Bool)
        (reqHash : String) (req : RequestOpts) (obj : Response)
        (est : EngineState), req.found = true →
      est.revalidating k = false →
      ((handleBackendResponse m h r now t reqHash req k obj true
          est).1).revalidating k = false) := by
  refine ⟨?_, ?_, ?_⟩
  · intro s hs
    induction hs with
    | init => simp [revInit]
    | @step s1 s2 hr hstep ih =>
        cases hstep with
        | enter k' hgo =>
            have hrev : s1.reval k' = false := by
              simpa [revalidateGate] using hgo
            by_cases hk : k = k'
            · subst hk
              have h0 : s1.inflightRev k = 0 := by
                have h1 := ih.1
                have hne1 : s1.inflightRev k ≠ 1 := by
                  intro hh
                  have hcon := ih.2.mpr hh
                  rw [hrev] at hcon
                  exact Bool.false_ne_true hcon
                omega
              constructor
              · simp [h0]
              · simp [revalidateGate, hrev, fupd, h0]
            · have hne : k ≠ k' := hk
              constructor
              · simpa [hne] using ih.1
              · have := ih.2
                simpa [revalidateGate, hrev, fupd, hne] using this
        | abandon k' hstop =>
            have hrev : s1.reval k' = true := by
              by_contra hne
              have : s1.reval k' = false := by
                cases hx : s1.reval k'
                · rfl
                · exact absurd hx hne
              rw [show revalidateGate k' s1.reval
                  = (!(s1.reval k'),
                    if s1.reval k' then s1.reval
                    else fupd s1.reval k' true) from rfl] at hstop
              rw [this] at hstop
              simp at hstop
            constructor
            · exact ih.1
            · have : (revalidateGate k' s1.reval).2 = s1.reval := by
                simp [revalidateGate, hrev]
              rw [this]
              exact ih.2
        | finish k' hin =>
            by_cases hk : k = k'
            · subst hk
              have h1 : s1.inflightRev k = 1 := by
                have := ih.1
                omega
              constructor
              · simp [h1]
              · simp [revalidateRelease, fupd, h1]
            · have hne : k ≠ k' := hk
              constructor
              · simpa [hne] using ih.1
              · have := ih.2
                simpa [revalidateRelease, fupd, hne] using this
  · intro m h r now t reqHash req obj est hrev
    unfold handleBackendResponse
    rw [if_pos ?_]
    exact ⟨rfl, by simp [revalidateGate, hrev]⟩
  · intro m h r now t reqHash req obj est hfound hrev
    unfold handleBackendResponse
    rw [if_neg ?hgneg]
    case hgneg =>
      rintro ⟨-, hg⟩
      rw [show revalidateGate k est.revalidating
          = (!(est.revalidating k),
            if est.revalidating k then est.revalidating
            else fupd est.revalidating k true) from rfl] at hg
      rw [hrev] at hg
      simp at hg
    dsimp only
    unfold backendFinish backendSuccessAndRender
    split_ifs <;>
      simp_all [revalidateRelease, fupd, driverSet, driverSetRequestOpts]

/-! Helper lemmas for the collapsed-forwarding interleaving model. -/

theorem ThreadOKCore_congr (m : MCConfig) (h : Handler) (r : Request)
    (now : Int) (t : Thread) (h1 h2 st1 st2 : Prop)
    (hh : h1 ↔ h2) (hst : st1 ↔ st2) :
    ThreadOKCore m h r now t h1 st1 ↔ ThreadOKCore m h r now t h2 st2 := by
  unfold ThreadOKCore
  split <;> simp only [hh, hst]

theorem updThread_same {n : Nat} (s : CState n) (i : Fin n) (t : Thread) :
    (updThread s i t).threads i = t := by
  unfold updThread
  exact Function.update_same i t s.threads

theorem updThread_ne {n : Nat} (s : CState n) (i : Fin n) (t : Thread)
    {j : Fin n} (hj : j ≠ i) : (updThread s i t).threads j = s.threads j := by
  unfold updThread
  exact Function.update_noteq hj t s.threads

theorem crd_congr {n : Nat} (p q : Fin n → Prop) [DecidablePred p]
    [DecidablePred q] (hpq : ∀ i, p i ↔ q i) : crd p = crd q := by
  unfold crd
  congr 1
  apply Finset.filter_congr
  intro x _
  simp only [hpq]

theorem crd_update_same {n : Nat} (f : Fin n → Thread) (i : Fin n)
    (t : Thread) (P : Thread → Prop) [DecidablePred P]
    (hiff : P t ↔ P (f i)) :
    crd (fun j => P (Function.update f i t j)) = crd (fun j => P (f j)) := by
  apply crd_congr
  intro j
  by_cases hj : j = i
  · subst hj
    rw [Function.update_same]
    exact hiff
  · rw [Function.update_noteq hj]

theorem crd_update_flip {n : Nat} (f : Fin n → Thread) (i : Fin n)
    (t : Thread) (P : Thread → Prop) [DecidablePred P]
    (hold : ¬P (f i)) (hnew : P t) :
    crd (fun j => P (Function.update f i t j))
      = crd (fun j => P (f j)) + 1 := by
  unfold crd
  have hset : Finset.univ.filter (fun j => P (Function.update f i t j)) =
      insert i (Finset.univ.filter (fun j => P (f j))) := by
    ext j
    simp only [Finset.mem_filter, Finset.mem_univ, true_and,
      Finset.mem_insert]
    by_cases hj : j = i
    · subst hj
      rw [Function.update_same]
      simp [hnew]
    · rw [Function.update_noteq hj]
      constructor
      · intro hp
        exact Or.inr hp
      · rintro (heq | hp)
        · exact absurd heq hj
        · exact hp
  rw [hset, Finset.card_insert_of_not_mem (by simp [hold])]

theorem crd_false {n : Nat} (p : Fin n → Prop) [DecidablePred p]
    (hp : ∀ i, ¬p i) : crd p = 0 := by
  unfold crd
  rw [Finset.card_eq_zero, Finset.filter_eq_empty_iff]
  intro i _
  exact hp i

theorem crd_le_one {n : Nat} (p : Fin n → Prop) [DecidablePred p]
    (huniq : ∀ i j, p i → p j → i = j) : crd p ≤ 1 := by
  unfold crd
  apply Finset.card_le_one.mpr
  intro a ha b hb
  rw [Finset.mem_filter] at ha hb
  exact huniq a b ha.2 hb.2

theorem crd_pos {n : Nat} (p : Fin n → Prop) [DecidablePred p]
    (i : Fin n) (hi : p i) : 1 ≤ crd p := by
  unfold crd
  rw [Nat.one_le_iff_ne_zero, ← Nat.pos_iff_ne_zero, Finset.card_pos]
  exact ⟨i, by simp [hi]⟩

theorem crd_compl {n : Nat} (p : Fin n → Prop) [DecidablePred p] :
    crd p + crd (fun i => ¬p i) = n := by
  unfold crd
  rw [Finset.filter_card_add_filter_neg_card_eq_card]
  simp

theorem onecrit (m : MCConfig) (h : Handler) (r : Request) (now : Int)
    {n : Nat} {s : CState n} (hI : CInv m h r now s)
    (hnst : ¬storedNow m h r s) {i j : Fin n}
    (hi : s.mheld (s.threads i).myMutex = some i)
    (hj : s.mheld (s.threads j).myMutex = some j) : i = j := by
  have hgi : (s.threads i).myMutex < s.gen := by
    by_contra hge
    rw [hI.gen_fresh _ (Nat.le_of_not_lt hge)] at hi
    exact Option.noConfusion hi
  have hgj : (s.threads j).myMutex < s.gen := by
    by_contra hge
    rw [hI.gen_fresh _ (Nat.le_of_not_lt hge)] at hj
    exact Option.noConfusion hj
  rcases hI.prestore hnst with ⟨hg0, -⟩ | ⟨hg1, -⟩
  · rw [hg0] at hgi
    exact absurd hgi (Nat.not_lt_zero _)
  · rw [hg1] at hgi hgj
    have hmi : (s.threads i).myMutex = 0 := Nat.lt_one_iff.mp hgi
    have hmj : (s.threads j).myMutex = 0 := Nat.lt_one_iff.mp hgj
    rw [hmi] at hi
    rw [hmj] at hj
    rw [hi] at hj
    exact Option.some.inj hj

theorem storedNow_of_objects {m : MCConfig} {h : Handler} {r : Request}
    {now : Int} {n : Nat} {s s' : CState n}
    (hobj : s'.engine.objects (scObjHash m h r)
      = s.engine.objects (scObjHash m h r)) :
    storedNow m h r s' ↔ storedNow m h r s := by
  unfold storedNow
  rw [hobj]

theorem CInv_counts_upd (m : MCConfig) (h : Handler) (r : Request)
    (now : Int) {n : Nat} {s : CState n} (hI : CInv m h r now s)
    (i : Fin n) (t' : Thread)
    (hdo : t'.didOrigin = (s.threads i).didOrigin)
    (hhit : t'.observedHit = (s.threads i).observedHit)
    (hdp : (t'.didOrigin = true ∧ donePC t'.pc) ↔
      ((s.threads i).didOrigin = true ∧ donePC (s.threads i).pc)) :
    (∀ a b, ((updThread s i t').threads a).didOrigin = true →
        ((updThread s i t').threads b).didOrigin = true → a = b) ∧
    s.engine.originCalls =
      crd (fun j => ((updThread s i t').threads j).didOrigin = true) ∧
    s.engine.hits =
      crd (fun j => ((updThread s i t').threads j).observedHit = true) ∧
    s.engine.misses = crd (fun j =>
      ((updThread s i t').threads j).didOrigin = true ∧
      donePC ((updThread s i t').threads j).pc) ∧
    (storedNow m h r s → ∃ j,
      ((updThread s i t').threads j).didOrigin = true ∧
      donePC ((updThread s i t').threads j).pc) := by
  have hdoj : ∀ j, ((updThread s i t').threads j).didOrigin
      = (s.threads j).didOrigin := by
    intro j
    by_cases hj : j = i
    · subst hj
      rw [updThread_same, hdo]
    · rw [updThread_ne _ _ _ hj]
  have hhitj : ∀ j, ((updThread s i t').threads j).observedHit
      = (s.threads j).observedHit := by
    intro j
    by_cases hj : j = i
    · subst hj
      rw [updThread_same, hhit]
    · rw [updThread_ne _ _ _ hj]
  have hdpj : ∀ j, (((updThread s i t').threads j).didOrigin = true ∧
      donePC ((updThread s i t').threads j).pc) ↔
      ((s.threads j).didOrigin = true ∧ donePC (s.threads j).pc) := by
    intro j
    by_cases hj : j = i
    · subst hj
      rw [updThread_same]
      exact hdp
    · rw [updThread_ne _ _ _ hj]
  refine ⟨?_, ?_, ?_, ?_, ?_⟩
  · intro a b ha hb
    rw [hdoj a] at ha
    rw [hdoj b] at hb
    exact hI.uniq_origin a b ha hb
  · rw [hI.cnt_origin]
    exact (crd_congr _ _ (fun j => by rw [hdoj j])).symm
  · rw [hI.cnt_hits]
    exact (crd_congr _ _ (fun j => by rw [hhitj j])).symm
  · rw [hI.cnt_misses]
    exact (crd_congr _ _ hdpj).symm
  · intro hst
    obtain ⟨j, hj1, hj2⟩ := hI.stored_wit hst
    exact ⟨j, (hdpj j).mpr ⟨hj1, hj2⟩⟩

theorem not_held_of_pc {m : MCConfig} {h : Handler} {r : Request}
    {now : Int} {n : Nat} {s : CState n} (hI : CInv m h r now s) (i : Fin n)
    {x : TPC} (hpc : (s.threads i).pc = x) (hx : ¬inCrit x) :
    ∀ g, s.mheld g ≠ some i := by
  intro g hg
  have := (hI.held_inv g i hg).2
  rw [hpc] at this
  exact hx this

theorem held_inv_upd {m : MCConfig} {h : Handler} {r : Request} {now : Int}
    {n : Nat} {s : CState n} (hI : CInv m h r now s) (i : Fin n) (t' : Thread)
    (hmu : t'.myMutex = (s.threads i).myMutex)
    (hcr : inCrit (s.threads i).pc → inCrit t'.pc) :
    ∀ g j, s.mheld g = some j →
      ((updThread s i t').threads j).myMutex = g ∧
      inCrit ((updThread s i t').threads j).pc := by
  intro g j hg
  obtain ⟨hm, hc⟩ := hI.held_inv g j hg
  by_cases hj : j = i
  · subst hj
    rw [updThread_same]
    exact ⟨by rw [hmu]; exact hm, hcr hc⟩
  · rw [updThread_ne _ _ _ hj]
    exact ⟨hm, hc⟩

theorem held_inv_upd2 {m : MCConfig} {h : Handler} {r : Request} {now : Int}
    {n : Nat} {s : CState n} (hI : CInv m h r now s) (i : Fin n) (t' : Thread)
    (hnh : ∀ g, s.mheld g ≠ some i) :
    ∀ g j, s.mheld g = some j →
      ((updThread s i t').threads j).myMutex = g ∧
      inCrit ((updThread s i t').threads j).pc := by
  intro g j hg
  obtain ⟨hm, hc⟩ := hI.held_inv g j hg
  by_cases hj : j = i
  · subst hj
    exact absurd hg (hnh g)
  · rw [updThread_ne _ _ _ hj]
    exact ⟨hm, hc⟩

theorem CInv_init (m : MCConfig) (h : Handler) (r : Request) (now : Int)
    (n : Nat) : CInv m h r now (initCState n) := by
  have hnst : ¬storedNow m h r (initCState n) := fun hst =>
    Bool.noConfusion hst
  refine ⟨?_, ?_, ?_, ?_, ?_, ?_, ?_, ?_, ?_, ?_, ?_, ?_, ?_, ?_, ?_, ?_⟩
  · intro i
    exact ⟨rfl, rfl⟩
  · intro i hpc
    exact TPC.noConfusion hpc
  · intro g i hg
    exact Option.noConfusion hg
  · intro g _
    rfl
  · intro g hg
    exact Option.noConfusion hg
  · intro _
    exact Or.inl ⟨rfl, rfl⟩
  · exact Or.inl ⟨rfl, hnst⟩
  · exact Or.inl rfl
  · intro i j hi _
    exact Bool.noConfusion hi
  · exact (crd_false _ (fun i htr => Bool.noConfusion htr)).symm
  · rfl
  · exact (crd_false _ (fun i htr => Bool.noConfusion htr)).symm
  · exact (crd_false _ (fun i hp => Bool.noConfusion hp.1)).symm
  · rfl
  · rfl
  · intro hst
    exact absurd hst hnst

theorem CInv_fetch (m : MCConfig) (h : Handler) (r : Request) (now : Int)
    {n : Nat} {s : CState n} (hI : CInv m h r now s) (i : Fin n)
    (hpc : (s.threads i).pc = TPC.fetch) :
    CInv m h r now (updThread s i
      { (s.threads i) with
        pc := TPC.check
        req := s.engine.requestOpts (getRequestHash m r) }) := by
  have hok := hI.thread i
  unfold ThreadOK ThreadOKCore at hok
  rw [hpc] at hok
  have hcounts := CInv_counts_upd m h r now hI i
    { (s.threads i) with
      pc := TPC.check
      req := s.engine.requestOpts (getRequestHash m r) }
    rfl rfl (by
      rw [hpc]
      constructor
      · rintro ⟨-, hd⟩
        exact absurd hd (by decide : ¬donePC TPC.check)
      · rintro ⟨-, hd⟩
        exact absurd hd (by decide : ¬donePC TPC.fetch))
  refine ⟨?_, ?_, ?_, hI.gen_fresh, hI.entry_lt, hI.prestore, hI.opts_inv,
    hI.objects_OH, hcounts.1, hcounts.2.1, hI.cnt_backends, hcounts.2.2.1,
    hcounts.2.2.2.1, hI.cnt_stales, hI.cnt_errors, hcounts.2.2.2.2⟩
  · intro j
    by_cases hj : j = i
    · subst hj
      unfold ThreadOK ThreadOKCore
      rw [updThread_same]
      refine ⟨hok.1, hok.2, ?_⟩
      rcases hI.opts_inv with ⟨ho, -⟩ | ⟨ho, hsy⟩
      · exact Or.inl ho
      · exact Or.inr ⟨ho, hsy⟩
    · unfold ThreadOK
      rw [updThread_ne _ _ _ hj]
      exact hI.thread j
  · intro j hpcj
    by_cases hj : j = i
    · subst hj
      rw [updThread_same] at hpcj
      exact absurd hpcj (by decide : ¬(TPC.check = TPC.acquire))
    · have := hI.acquire_lt j
      rw [updThread_ne _ _ _ hj] at hpcj ⊢
      exact this hpcj
  · exact held_inv_upd2 hI i _
      (not_held_of_pc hI i hpc (by decide : ¬inCrit TPC.fetch))

theorem tickHit_misses (m : MCConfig) (st : EngineState) :
    (tickHit m st).misses = st.misses := by
  unfold tickHit; split <;> rfl

theorem tickHit_backends (m : MCConfig) (st : EngineState) :
    (tickHit m st).backends = st.backends := by
  unfold tickHit; split <;> rfl

theorem tickHit_stales (m : MCConfig) (st : EngineState) :
    (tickHit m st).stales = st.stales := by
  unfold tickHit; split <;> rfl

theorem tickHit_errors (m : MCConfig) (st : EngineState) :
    (tickHit m st).errors = st.errors := by
  unfold tickHit; split <;> rfl

theorem tickHit_requestOpts (m : MCConfig) (st : EngineState) :
    (tickHit m st).requestOpts = st.requestOpts := by
  unfold tickHit; split <;> rfl

theorem tickHit_originCalls (m : MCConfig) (st : EngineState) :
    (tickHit m st).originCalls = st.originCalls := by
  unfold tickHit; split <;> rfl

theorem tickHit_hits_inc (m : MCConfig) (st : EngineState)
    (hmon : m.hasMonitor = true) : (tickHit m st).hits = st.hits + 1 := by
  unfold tickHit; rw [if_pos hmon]

theorem tickMiss_hits (m : MCConfig) (st : EngineState) :
    (tickMiss m st).hits = st.hits := by
  unfold tickMiss; split <;> rfl

theorem tickMiss_backends (m : MCConfig) (st : EngineState) :
    (tickMiss m st).backends = st.backends := by
  unfold tickMiss; split <;> rfl

theorem tickMiss_requestOpts (m : MCConfig) (st : EngineState) :
    (tickMiss m st).requestOpts = st.requestOpts := by
  unfold tickMiss; split <;> rfl

theorem tickMiss_originCalls (m : MCConfig) (st : EngineState) :
    (tickMiss m st).originCalls = st.originCalls := by
  unfold tickMiss; split <;> rfl

theorem tickMiss_misses_inc (m : MCConfig) (st : EngineState)
    (hmon : m.hasMonitor = true) : (tickMiss m st).misses = st.misses + 1 := by
  unfold tickMiss; rw [if_pos hmon]

theorem tickBackend_requestOpts (m : MCConfig) (st : EngineState) :
    (tickBackend m st).requestOpts = st.requestOpts := by
  unfold tickBackend; split <;> rfl

theorem tickBackend_originCalls (m : MCConfig) (st : EngineState) :
    (tickBackend m st).originCalls = st.originCalls := by
  unfold tickBackend; split <;> rfl

theorem tickBackend_backends_inc (m : MCConfig) (st : EngineState)
    (hmon : m.hasMonitor = true) :
    (tickBackend m st).backends = st.backends + 1 := by
  unfold tickBackend; rw [if_pos hmon]

theorem beEnd_eval (m : MCConfig) (h : Handler) (r : Request) (now : Int)
    (hs : Scn m h r now) (oh0 : String) (est : EngineState) :
    backendFinish m r now (getRequestHash m r) zeroOpts oh0 emptyResponse
      (scBeres m h r) false est
    = (tickMiss m (driverSet (driverSetRequestOpts est (getRequestHash m r)
        (scOpts m h r)) (scObjHash m h r) (scStored m h r now)),
       exposureEvents m "MISS" ++ sendResponse
         { (scBeres m h r) with
           found := true
           expires := now + (scOpts m h r).ttl }) := by
  have hS : 200 ≤ (scBeres m h r).status ∧ (scBeres m h r).status < 400 :=
    ⟨hs.succ2, hs.succ4⟩
  have hno500 : ¬(500 ≤ (scBeres m h r).status ∧
      emptyResponse.found = true) := by
    rintro ⟨-, hf⟩
    exact absurd hf (by decide : ¬(emptyResponse.found = true))
  unfold backendFinish
  rw [if_neg hno500]
  unfold backendSuccessAndRender
  dsimp only
  have hc1 : ((200 ≤ (scBeres m h r).status ∧ (scBeres m h r).status < 400) ∧
      ¬zeroOpts.found = true) := ⟨hS, by decide⟩
  rw [if_pos hc1, if_pos hc1, if_pos hc1]
  have hc2 : ((200 ≤ (scBeres m h r).status ∧ (scBeres m h r).status < 400) ∧
      ¬(buildRequestOpts m (scBeres m h r) r).nocache = true) := by
    refine ⟨hS, ?_⟩
    have honc := hs.onc
    unfold scOpts at honc
    rw [honc]
    exact Bool.false_ne_true
  rw [if_pos hc2, if_pos hc2]
  rw [if_pos (by simp : ¬(false = true))]
  unfold scStored scObjHash scOpts scBeres
  rfl

theorem no_other_origin {m : MCConfig} {h : Handler} {r : Request}
    {now : Int} {n : Nat} {s : CState n} (hI : CInv m h r now s)
    (hnst : ¬storedNow m h r s) (i : Fin n)
    (hheld : s.mheld (s.threads i).myMutex = some i) :
    ∀ b, b ≠ i → ¬((s.threads b).didOrigin = true) := by
  intro b hb hdb
  have hokb := hI.thread b
  unfold ThreadOK ThreadOKCore at hokb
  cases hpcb : (s.threads b).pc <;> rw [hpcb] at hokb
  case fetch => rw [hokb.1] at hdb; exact Bool.noConfusion hdb
  case check => rw [hokb.1] at hdb; exact Bool.noConfusion hdb
  case gate => rw [hokb.1] at hdb; exact Bool.noConfusion hdb
  case acquire => rw [hokb.1] at hdb; exact Bool.noConfusion hdb
  case reread => rw [hokb.1] at hdb; exact Bool.noConfusion hdb
  case lookup => rw [hokb.1] at hdb; exact Bool.noConfusion hdb
  case act => rw [hokb.1] at hdb; exact Bool.noConfusion hdb
  case beRun => exact hb (onecrit m h r now hI hnst hokb.2.2.1 hheld)
  case beEnd => exact hb (onecrit m h r now hI hnst hokb.2.2.1 hheld)
  case unlockA => exact absurd hokb.2.1 hnst
  case unlockB => exact absurd hokb.1 hnst
  case done => exact absurd hokb.1 hnst

theorem CInv_checkNocache (m : MCConfig) (h : Handler) (r : Request)
    (now : Int) {n : Nat} {s : CState n} (hs : Scn m h r now)
    (hI : CInv m h r now s) (i : Fin n)
    (hpc : (s.threads i).pc = TPC.check)
    (hnc : (s.threads i).req.nocache = true) {s' : CState n} :
    CInv m h r now s' := by
  exfalso
  have hok := hI.thread i
  unfold ThreadOK ThreadOKCore at hok
  rw [hpc] at hok
  rcases hok.2.2 with hz | ⟨hsc, -⟩
  · rw [hz] at hnc
    exact absurd hnc (by decide : ¬(zeroOpts.nocache = true))
  · rw [hsc, hs.onc] at hnc
    exact Bool.noConfusion hnc

theorem CInv_checkGo (m : MCConfig) (h : Handler) (r : Request) (now : Int)
    {n : Nat} {s : CState n} (hI : CInv m h r now s) (i : Fin n)
    (hpc : (s.threads i).pc = TPC.check) :
    CInv m h r now (updThread s i { (s.threads i) with pc := TPC.gate }) := by
  have hok := hI.thread i
  unfold ThreadOK ThreadOKCore at hok
  rw [hpc] at hok
  have hcounts := CInv_counts_upd m h r now hI i
    { (s.threads i) with pc := TPC.gate }
    rfl rfl (by
      rw [hpc]
      constructor
      · rintro ⟨-, hd⟩
        exact absurd hd (by decide : ¬donePC TPC.gate)
      · rintro ⟨-, hd⟩
        exact absurd hd (by decide : ¬donePC TPC.check))
  refine ⟨?_, ?_, ?_, hI.gen_fresh, hI.entry_lt, hI.prestore, hI.opts_inv,
    hI.objects_OH, hcounts.1, hcounts.2.1, hI.cnt_backends, hcounts.2.2.1,
    hcounts.2.2.2.1, hI.cnt_stales, hI.cnt_errors, hcounts.2.2.2.2⟩
  · intro j
    by_cases hj : j = i
    · subst hj
      unfold ThreadOK ThreadOKCore
      rw [updThread_same]
      exact ⟨hok.1, hok.2.1, hok.2.2⟩
    · unfold ThreadOK
      rw [updThread_ne _ _ _ hj]
      exact hI.thread j
  · intro j hpcj
    by_cases hj : j = i
    · subst hj
      rw [updThread_same] at hpcj
      exact absurd hpcj (by decide : ¬(TPC.gate = TPC.acquire))
    · have := hI.acquire_lt j
      rw [updThread_ne _ _ _ hj] at hpcj ⊢
      exact this hpcj
  · exact held_inv_upd2 hI i _
      (not_held_of_pc hI i hpc (by decide : ¬inCrit TPC.check))

theorem CInv_gateJoin (m : MCConfig) (h : Handler) (r : Request) (now : Int)
    {n : Nat} {s : CState n} (hI : CInv m h r now s) (i : Fin n) (g : Nat)
    (hpc : (s.threads i).pc = TPC.gate) (he : s.entry = some g) :
    CInv m h r now (updThread s i
      { (s.threads i) with pc := TPC.acquire, myMutex := g }) := by
  have hok := hI.thread i
  unfold ThreadOK ThreadOKCore at hok
  rw [hpc] at hok
  have hcounts := CInv_counts_upd m h r now hI i
    { (s.threads i) with pc := TPC.acquire, myMutex := g }
    rfl rfl (by
      rw [hpc]
      constructor
      · rintro ⟨-, hd⟩
        exact absurd hd (by decide : ¬donePC TPC.acquire)
      · rintro ⟨-, hd⟩
        exact absurd hd (by decide : ¬donePC TPC.gate))
  refine ⟨?_, ?_, ?_, hI.gen_fresh, hI.entry_lt, hI.prestore, hI.opts_inv,
    hI.objects_OH, hcounts.1, hcounts.2.1, hI.cnt_backends, hcounts.2.2.1,
    hcounts.2.2.2.1, hI.cnt_stales, hI.cnt_errors, hcounts.2.2.2.2⟩
  · intro j
    by_cases hj : j = i
    · subst hj
      unfold ThreadOK ThreadOKCore
      rw [updThread_same]
      exact ⟨hok.1, hok.2.1, hok.2.2⟩
    · unfold ThreadOK
      rw [updThread_ne _ _ _ hj]
      exact hI.thread j
  · intro j hpcj
    by_cases hj : j = i
    · subst hj
      rw [updThread_same]
      exact hI.entry_lt g he
    · have := hI.acquire_lt j
      rw [updThread_ne _ _ _ hj] at hpcj ⊢
      exact this hpcj
  · exact held_inv_upd2 hI i _
      (not_held_of_pc hI i hpc (by decide : ¬inCrit TPC.gate))

theorem CInv_gateCreate (m : MCConfig) (h : Handler) (r : Request)
    (now : Int) {n : Nat} {s : CState n} (hI : CInv m h r now s) (i : Fin n)
    (hpc : (s.threads i).pc = TPC.gate) (he : s.entry = none) :
    CInv m h r now
      { (updThread s i { (s.threads i) with
          pc := TPC.acquire
          myMutex := s.gen }) with
        gen := s.gen + 1
        entry := some s.gen } := by
  have hok := hI.thread i
  unfold ThreadOK ThreadOKCore at hok
  rw [hpc] at hok
  have hcounts := CInv_counts_upd m h r now hI i
    { (s.threads i) with pc := TPC.acquire, myMutex := s.gen }
    rfl rfl (by
      rw [hpc]
      constructor
      · rintro ⟨-, hd⟩
        exact absurd hd (by decide : ¬donePC TPC.acquire)
      · rintro ⟨-, hd⟩
        exact absurd hd (by decide : ¬donePC TPC.gate))
  refine ⟨?_, ?_, ?_, ?_, ?_, ?_, hI.opts_inv, hI.objects_OH, hcounts.1,
    hcounts.2.1, hI.cnt_backends, hcounts.2.2.1, hcounts.2.2.2.1,
    hI.cnt_stales, hI.cnt_errors, hcounts.2.2.2.2⟩
  · intro j
    by_cases hj : j = i
    · subst hj
      unfold ThreadOK ThreadOKCore
      rw [updThread_same]
      exact ⟨hok.1, hok.2.1, hok.2.2⟩
    · unfold ThreadOK
      rw [updThread_ne _ _ _ hj]
      exact hI.thread j
  · intro j hpcj
    by_cases hj : j = i
    · subst hj
      rw [updThread_same]
      exact Nat.lt_succ_self s.gen
    · have := hI.acquire_lt j
      rw [updThread_ne _ _ _ hj] at hpcj ⊢
      exact Nat.lt_succ_of_lt (this hpcj)
  · exact held_inv_upd2 hI i _
      (not_held_of_pc hI i hpc (by decide : ¬inCrit TPC.gate))
  · intro g2 hg2
    exact hI.gen_fresh g2 (Nat.le_of_succ_le hg2)
  · intro g2 hg2
    have : g2 = s.gen := by
      injection hg2 with hx
      exact hx.symm
    rw [this]
    exact Nat.lt_succ_self s.gen
  · intro hnst
    rcases hI.prestore hnst with ⟨hg0, -⟩ | ⟨-, hent⟩
    · refine Or.inr ⟨by rw [hg0], by rw [hg0]⟩
    · rw [he] at hent
      exact Option.noConfusion hent

theorem CInv_acquire (m : MCConfig) (h : Handler) (r : Request) (now : Int)
    {n : Nat} {s : CState n} (hI : CInv m h r now s) (i : Fin n)
    (hpc : (s.threads i).pc = TPC.acquire)
    (hfree : s.mheld (s.threads i).myMutex = none) :
    CInv m h r now
      { (updThread s i { (s.threads i) with pc := TPC.reread }) with
        mheld := Function.update s.mheld (s.threads i).myMutex (some i) } := by
  have hok := hI.thread i
  unfold ThreadOK ThreadOKCore at hok
  rw [hpc] at hok
  have hcounts := CInv_counts_upd m h r now hI i
    { (s.threads i) with pc := TPC.reread }
    rfl rfl (by
      rw [hpc]
      constructor
      · rintro ⟨-, hd⟩
        exact absurd hd (by decide : ¬donePC TPC.reread)
      · rintro ⟨-, hd⟩
        exact absurd hd (by decide : ¬donePC TPC.acquire))
  have hmynew : ∀ j : Fin n, j ≠ i →
      (Function.update s.mheld (s.threads i).myMutex (some i)
          ((s.threads j).myMutex) = some j ↔
        s.mheld ((s.threads j).myMutex) = some j) := by
    intro j hj
    by_cases hm : (s.threads j).myMutex = (s.threads i).myMutex
    · rw [hm, Function.update_same, hfree]
      constructor
      · intro hx
        exact absurd (Option.some.inj hx).symm hj
      · intro hx
        exact Option.noConfusion hx
    · rw [Function.update_noteq hm]
  refine ⟨?_, ?_, ?_, ?_, hI.entry_lt, hI.prestore, hI.opts_inv,
    hI.objects_OH, hcounts.1, hcounts.2.1, hI.cnt_backends, hcounts.2.2.1,
    hcounts.2.2.2.1, hI.cnt_stales, hI.cnt_errors, hcounts.2.2.2.2⟩
  · intro j
    by_cases hj : j = i
    · subst hj
      unfold ThreadOK ThreadOKCore
      rw [updThread_same]
      exact ⟨hok.1, hok.2.1, hok.2.2, Function.update_same _ _ _⟩
    · unfold ThreadOK
      rw [updThread_ne _ _ _ hj]
      have hokj := hI.thread j
      unfold ThreadOK at hokj
      exact (ThreadOKCore_congr m h r now (s.threads j) _ _ _ _
        (hmynew j hj) Iff.rfl).mpr hokj
  · intro j hpcj
    by_cases hj : j = i
    · subst hj
      rw [updThread_same] at hpcj
      exact absurd hpcj (by decide : ¬(TPC.reread = TPC.acquire))
    · have := hI.acquire_lt j
      rw [updThread_ne _ _ _ hj] at hpcj ⊢
      exact this hpcj
  · intro g j hg
    have hg2 : Function.update s.mheld (s.threads i).myMutex (some i) g
        = some j := hg
    by_cases hgm : g = (s.threads i).myMutex
    · subst hgm
      rw [Function.update_same] at hg2
      have hji : j = i := (Option.some.inj hg2).symm
      subst hji
      rw [updThread_same]
      exact ⟨rfl, (by decide : inCrit TPC.reread)⟩
    · rw [Function.update_noteq hgm] at hg2
      obtain ⟨hm, hc⟩ := hI.held_inv g j hg2
      by_cases hj : j = i
      · subst hj
        rw [hpc] at hc
        exact absurd hc (by decide : ¬inCrit TPC.acquire)
      · rw [updThread_ne _ _ _ hj]
        exact ⟨hm, hc⟩
  · intro g hg
    have hg2 : s.gen ≤ g := hg
    have hlt := hI.acquire_lt i hpc
    have hne : g ≠ (s.threads i).myMutex := by
      intro hx
      rw [hx] at hg2
      omega
    show Function.update s.mheld (s.threads i).myMutex (some i) g = none
    rw [Function.update_noteq hne]
    exact hI.gen_fresh g hg2

theorem CInv_reread (m : MCConfig) (h : Handler) (r : Request) (now : Int)
    {n : Nat} {s : CState n} (hs : Scn m h r now) (hI : CInv m h r now s)
    (i : Fin n) (hpc : (s.threads i).pc = TPC.reread) :
    CInv m h r now (updThread s i
      { (s.threads i) with
        pc := TPC.lookup
        req := if (s.threads i).req.found then (s.threads i).req
          else s.engine.requestOpts (getRequestHash m r) }) := by
  have hok := hI.thread i
  unfold ThreadOK ThreadOKCore at hok
  rw [hpc] at hok
  have hcounts := CInv_counts_upd m h r now hI i
    { (s.threads i) with
      pc := TPC.lookup
      req := if (s.threads i).req.found then (s.threads i).req
        else s.engine.requestOpts (getRequestHash m r) }
    rfl rfl (by
      rw [hpc]
      constructor
      · rintro ⟨-, hd⟩
        exact absurd hd (by decide : ¬donePC TPC.lookup)
      · rintro ⟨-, hd⟩
        exact absurd hd (by decide : ¬donePC TPC.reread))
  refine ⟨?_, ?_, ?_, hI.gen_fresh, hI.entry_lt, hI.prestore, hI.opts_inv,
    hI.objects_OH, hcounts.1, hcounts.2.1, hI.cnt_backends, hcounts.2.2.1,
    hcounts.2.2.2.1, hI.cnt_stales, hI.cnt_errors, hcounts.2.2.2.2⟩
  · intro j
    by_cases hj : j = i
    · subst hj
      unfold ThreadOK ThreadOKCore
      rw [updThread_same]
      refine ⟨hok.1, hok.2.1, hok.2.2.2, ?_⟩
      rcases hok.2.2.1 with hz | ⟨hsc, hst⟩
      · rw [hz]
        rw [if_neg (by decide : ¬(zeroOpts.found = true))]
        rcases hI.opts_inv with ⟨ho, hns⟩ | ⟨ho, hsy⟩
        · exact Or.inr ⟨ho, hns⟩
        · exact Or.inl ⟨ho, hsy⟩
      · rw [hsc]
        rw [if_pos hs.ofound]
        exact Or.inl ⟨rfl, hst⟩
    · unfold ThreadOK
      rw [updThread_ne _ _ _ hj]
      exact hI.thread j
  · intro j hpcj
    by_cases hj : j = i
    · subst hj
      rw [updThread_same] at hpcj
      exact absurd hpcj (by decide : ¬(TPC.lookup = TPC.acquire))
    · have := hI.acquire_lt j
      rw [updThread_ne _ _ _ hj] at hpcj ⊢
      exact this hpcj
  · exact held_inv_upd hI i _ rfl
      (fun _ => by decide : inCrit (s.threads i).pc → inCrit TPC.lookup)

theorem CInv_lookup (m : MCConfig) (h : Handler) (r : Request) (now : Int)
    {n : Nat} {s : CState n} (hs : Scn m h r now) (hI : CInv m h r now s)
    (i : Fin n) (hpc : (s.threads i).pc = TPC.lookup) :
    CInv m h r now (updThread s i
      { (s.threads i) with
        pc := TPC.act
        objHash := if (s.threads i).req.found then
          (s.threads i).req.getObjectHash (getRequestHash m r) r else ""
        obj := if (s.threads i).req.found then
          s.engine.objects
            ((s.threads i).req.getObjectHash (getRequestHash m r) r)
          else emptyResponse }) := by
  have hok := hI.thread i
  unfold ThreadOK ThreadOKCore at hok
  rw [hpc] at hok
  have hcounts := CInv_counts_upd m h r now hI i
    { (s.threads i) with
      pc := TPC.act
      objHash := if (s.threads i).req.found then
        (s.threads i).req.getObjectHash (getRequestHash m r) r else ""
      obj := if (s.threads i).req.found then
        s.engine.objects
          ((s.threads i).req.getObjectHash (getRequestHash m r) r)
        else emptyResponse }
    rfl rfl (by
      rw [hpc]
      constructor
      · rintro ⟨-, hd⟩
        exact absurd hd (by decide : ¬donePC TPC.act)
      · rintro ⟨-, hd⟩
        exact absurd hd (by decide : ¬donePC TPC.lookup))
  refine ⟨?_, ?_, ?_, hI.gen_fresh, hI.entry_lt, hI.prestore, hI.opts_inv,
    hI.objects_OH, hcounts.1, hcounts.2.1, hI.cnt_backends, hcounts.2.2.1,
    hcounts.2.2.2.1, hI.cnt_stales, hI.cnt_errors, hcounts.2.2.2.2⟩
  · intro j
    by_cases hj : j = i
    · subst hj
      unfold ThreadOK ThreadOKCore
      rw [updThread_same]
      refine ⟨hok.1, hok.2.1, hok.2.2.1, ?_⟩
      rcases hok.2.2.2 with ⟨hsc, hst⟩ | ⟨hz, hns⟩
      · refine Or.inl ⟨hsc, ?_, ?_, hst⟩
        · rw [hsc]
          rw [if_pos hs.ofound, if_pos hs.ofound]
          rfl
        · rw [hsc]
          rw [if_pos hs.ofound, if_pos hs.ofound]
          rcases hI.objects_OH with hemp | hsto
          · exfalso
            unfold storedNow at hst
            rw [hemp] at hst
            exact Bool.noConfusion hst
          · exact hsto
      · refine Or.inr ⟨hz, ?_, hns⟩
        rw [hz]
        rw [if_neg (by decide : ¬(zeroOpts.found = true)),
          if_neg (by decide : ¬(zeroOpts.found = true))]
    · unfold ThreadOK
      rw [updThread_ne _ _ _ hj]
      exact hI.thread j
  · intro j hpcj
    by_cases hj : j = i
    · subst hj
      rw [updThread_same] at hpcj
      exact absurd hpcj (by decide : ¬(TPC.act = TPC.acquire))
    · have := hI.acquire_lt j
      rw [updThread_ne _ _ _ hj] at hpcj ⊢
      exact this hpcj
  · exact held_inv_upd hI i _ rfl
      (fun _ => by decide : inCrit (s.threads i).pc → inCrit TPC.act)

/-- C4 witness: after one gate entry for a key the single-flight invariant
instance obtained from the theorem at that reachable state. -/
theorem revalidation_single_flight_witness :
    ({ reval := (revalidateGate "obj" revInit.reval).2,
       inflightRev := fun j => if j = "obj" then revInit.inflightRev j + 1
         else revInit.inflightRev j } : RevState).inflightRev "obj" ≤ 1 :=
  ((revalidation_single_flight "obj").1 _
    (RevReach.step RevReach.init
      (RevStep.enter revInit "obj" (by decide)))).1


theorem CInv_counts_hitflip (m : MCConfig) (h : Handler) (r : Request)
    (now : Int) {n : Nat} {s : CState n} (hI : CInv m h r now s)
    (i : Fin n) (t2 : Thread)
    (hdo : t2.didOrigin = (s.threads i).didOrigin)
    (hold : (s.threads i).observedHit = false)
    (hnew : t2.observedHit = true)
    (hdp : (t2.didOrigin = true ∧ donePC t2.pc) ↔
      ((s.threads i).didOrigin = true ∧ donePC (s.threads i).pc)) :
    (∀ a b, ((updThread s i t2).threads a).didOrigin = true →
        ((updThread s i t2).threads b).didOrigin = true → a = b) ∧
    s.engine.originCalls =
      crd (fun j => ((updThread s i t2).threads j).didOrigin = true) ∧
    s.engine.hits + 1 =
      crd (fun j => ((updThread s i t2).threads j).observedHit = true) ∧
    s.engine.misses = crd (fun j =>
      ((updThread s i t2).threads j).didOrigin = true ∧
      donePC ((updThread s i t2).threads j).pc) ∧
    (storedNow m h r s → ∃ j,
      ((updThread s i t2).threads j).didOrigin = true ∧
      donePC ((updThread s i t2).threads j).pc) := by
  have hdoj : ∀ j, ((updThread s i t2).threads j).didOrigin
      = (s.threads j).didOrigin := by
    intro j
    by_cases hj : j = i
    · subst hj
      rw [updThread_same, hdo]
    · rw [updThread_ne _ _ _ hj]
  have hdpj : ∀ j, (((updThread s i t2).threads j).didOrigin = true ∧
      donePC ((updThread s i t2).threads j).pc) ↔
      ((s.threads j).didOrigin = true ∧ donePC (s.threads j).pc) := by
    intro j
    by_cases hj : j = i
    · subst hj
      rw [updThread_same]
      exact hdp
    · rw [updThread_ne _ _ _ hj]
  refine ⟨?_, ?_, ?_, ?_, ?_⟩
  · intro a b ha hb
    rw [hdoj a] at ha
    rw [hdoj b] at hb
    exact hI.uniq_origin a b ha hb
  · rw [hI.cnt_origin]
    exact (crd_congr _ _ (fun j => by rw [hdoj j])).symm
  · rw [hI.cnt_hits]
    exact (crd_update_flip s.threads i t2 (fun t => t.observedHit = true)
      (by show ¬((s.threads i).observedHit = true)
          rw [hold]; exact Bool.false_ne_true) hnew).symm
  · rw [hI.cnt_misses]
    exact (crd_congr _ _ hdpj).symm
  · intro hst
    obtain ⟨j, hj1, hj2⟩ := hI.stored_wit hst
    exact ⟨j, (hdpj j).mpr ⟨hj1, hj2⟩⟩

theorem CInv_counts_originflip (m : MCConfig) (h : Handler) (r : Request)
    (now : Int) {n : Nat} {s : CState n} (hI : CInv m h r now s)
    (i : Fin n) (t2 : Thread)
    (hold : (s.threads i).didOrigin = false)
    (hnew : t2.didOrigin = true)
    (hhit : t2.observedHit = (s.threads i).observedHit)
    (hnd : ¬donePC t2.pc)
    (huo : ∀ b, b ≠ i → ¬((s.threads b).didOrigin = true)) :
    (∀ a b, ((updThread s i t2).threads a).didOrigin = true →
        ((updThread s i t2).threads b).didOrigin = true → a = b) ∧
    s.engine.originCalls + 1 =
      crd (fun j => ((updThread s i t2).threads j).didOrigin = true) ∧
    s.engine.hits =
      crd (fun j => ((updThread s i t2).threads j).observedHit = true) ∧
    s.engine.misses = crd (fun j =>
      ((updThread s i t2).threads j).didOrigin = true ∧
      donePC ((updThread s i t2).threads j).pc) := by
  refine ⟨?_, ?_, ?_, ?_⟩
  · intro a b ha hb
    by_cases hai : a = i
    · by_cases hbi : b = i
      · rw [hai, hbi]
      · rw [updThread_ne _ _ _ hbi] at hb
        exact absurd hb (huo b hbi)
    · rw [updThread_ne _ _ _ hai] at ha
      exact absurd ha (huo a hai)
  · rw [hI.cnt_origin]
    exact (crd_update_flip s.threads i t2 (fun t => t.didOrigin = true)
      (by show ¬((s.threads i).didOrigin = true)
          rw [hold]; exact Bool.false_ne_true) hnew).symm
  · rw [hI.cnt_hits]
    exact (crd_update_same s.threads i t2 (fun t => t.observedHit = true)
      (by show t2.observedHit = true ↔ (s.threads i).observedHit = true
          rw [hhit])).symm
  · rw [hI.cnt_misses]
    refine (crd_update_same s.threads i t2
      (fun t => t.didOrigin = true ∧ donePC t.pc) ?_).symm
    constructor
    · rintro ⟨-, hdp⟩
      exact absurd hdp hnd
    · rintro ⟨hd, -⟩
      rw [hold] at hd
      exact absurd hd Bool.false_ne_true

theorem CInv_actHit (m : MCConfig) (h : Handler) (r : Request) (now : Int)
    {n : Nat} {s : CState n} (hs : Scn m h r now) (hI : CInv m h r now s)
    (i : Fin n) (hpc : (s.threads i).pc = TPC.act)
    (hfresh : (s.threads i).obj.found = true ∧
      now < (s.threads i).obj.expires) :
    CInv m h r now
      { (updThread s i { (s.threads i) with
          pc := TPC.unlockA
          observedHit := true
          observed := exposureEvents m "HIT" ++
            sendResponse (s.threads i).obj })
        with engine := tickHit m s.engine } := by
  have hok := hI.thread i
  unfold ThreadOK ThreadOKCore at hok
  rw [hpc] at hok
  obtain ⟨h1, h2, hheld, hdis⟩ := hok
  have hbr : (s.threads i).req = scOpts m h r ∧
      (s.threads i).objHash = scObjHash m h r ∧
      (s.threads i).obj = scStored m h r now ∧ storedNow m h r s := by
    rcases hdis with hb | ⟨-, hobj, -⟩
    · exact hb
    · exfalso
      rw [hobj] at hfresh
      exact absurd hfresh.1 (by decide : ¬(emptyResponse.found = true))
  obtain ⟨hsc, hoh, hobj, hst⟩ := hbr
  have hsiff : ((tickHit m s.engine).objects (scObjHash m h r)).found = true
      ↔ storedNow m h r s := by
    unfold storedNow
    rw [tickHit_objects]
  have hflip := CInv_counts_hitflip m h r now hI i
    { (s.threads i) with
      pc := TPC.unlockA
      observedHit := true
      observed := exposureEvents m "HIT" ++
        sendResponse (s.threads i).obj }
    rfl h2 rfl (by
      constructor
      · rintro ⟨hd, -⟩
        have hd2 : (s.threads i).didOrigin = true := hd
        rw [h1] at hd2
        exact absurd hd2 Bool.false_ne_true
      · rintro ⟨hd, -⟩
        rw [h1] at hd
        exact absurd hd Bool.false_ne_true)
  refine ⟨?_, ?_, ?_, hI.gen_fresh, hI.entry_lt, ?_, ?_, ?_, hflip.1, ?_,
    ?_, ?_, ?_, ?_, ?_, ?_⟩
  · intro j
    by_cases hj : j = i
    · subst hj
      unfold ThreadOK ThreadOKCore
      rw [updThread_same]
      exact ⟨hheld, hsiff.mpr hst, Or.inr ⟨h1, rfl, by rw [hobj]⟩⟩
    · unfold ThreadOK
      rw [updThread_ne _ _ _ hj]
      exact (ThreadOKCore_congr m h r now (s.threads j) _ _ _ _
        Iff.rfl hsiff).mpr (hI.thread j)
  · intro j hpcj
    by_cases hj : j = i
    · subst hj
      rw [updThread_same] at hpcj
      exact absurd hpcj (by decide : ¬(TPC.unlockA = TPC.acquire))
    · have := hI.acquire_lt j
      rw [updThread_ne _ _ _ hj] at hpcj ⊢
      exact this hpcj
  · exact held_inv_upd hI i _ rfl
      (fun _ => by decide : inCrit (s.threads i).pc → inCrit TPC.unlockA)
  · intro hx
    exact absurd (hsiff.mpr hst) hx
  · rcases hI.opts_inv with ⟨-, hns⟩ | ⟨ho, -⟩
    · exact absurd hst hns
    · refine Or.inr ⟨?_, hsiff.mpr hst⟩
      show (tickHit m s.engine).requestOpts (getRequestHash m r)
        = scOpts m h r
      rw [tickHit_requestOpts]
      exact ho
  · show (tickHit m s.engine).objects (scObjHash m h r) = emptyResponse ∨
      (tickHit m s.engine).objects (scObjHash m h r) = scStored m h r now
    rw [tickHit_objects]
    exact hI.objects_OH
  · show (tickHit m s.engine).originCalls = _
    rw [tickHit_originCalls]
    exact hflip.2.1
  · show (tickHit m s.engine).backends = (tickHit m s.engine).originCalls
    rw [tickHit_backends, tickHit_originCalls]
    exact hI.cnt_backends
  · show (tickHit m s.engine).hits = _
    rw [tickHit_hits_inc m s.engine hs.mon]
    exact hflip.2.2.1
  · show (tickHit m s.engine).misses = _
    rw [tickHit_misses]
    exact hflip.2.2.2.1
  · show (tickHit m s.engine).stales = 0
    rw [tickHit_stales]
    exact hI.cnt_stales
  · show (tickHit m s.engine).errors = 0
    rw [tickHit_errors]
    exact hI.cnt_errors
  · intro _
    exact hflip.2.2.2.2 hst

theorem CInv_actSwr (m : MCConfig) (h : Handler) (r : Request) (now : Int)
    {n : Nat} {s : CState n} (hs : Scn m h r now) (hI : CInv m h r now s)
    (i : Fin n) (hpc : (s.threads i).pc = TPC.act)
    (hnf : ¬((s.threads i).obj.found = true ∧
      now < (s.threads i).obj.expires))
    (hswr : (s.threads i).obj.found = true ∧
      0 < (s.threads i).req.staleWhileRevalidate ∧
      now < (s.threads i).obj.expires + (s.threads i).req.staleWhileRevalidate)
    {s2 : CState n} : CInv m h r now s2 := by
  exfalso
  have hok := hI.thread i
  unfold ThreadOK ThreadOKCore at hok
  rw [hpc] at hok
  rcases hok.2.2.2 with ⟨-, -, hobj, -⟩ | ⟨-, hobj, -⟩
  · rw [hobj] at hnf
    exact hnf ⟨hs.sfound, hs.sfresh⟩
  · rw [hobj] at hswr
    exact absurd hswr.1 (by decide : ¬(emptyResponse.found = true))

theorem CInv_actMiss (m : MCConfig) (h : Handler) (r : Request) (now : Int)
    {n : Nat} {s : CState n} (hs : Scn m h r now) (hI : CInv m h r now s)
    (i : Fin n) (hpc : (s.threads i).pc = TPC.act)
    (hnf : ¬((s.threads i).obj.found = true ∧
      now < (s.threads i).obj.expires)) :
    CInv m h r now
      { (updThread s i { (s.threads i) with
          pc := TPC.beRun
          didOrigin := true }) with
        engine := { (tickBackend m s.engine) with
          originCalls := s.engine.originCalls + 1 } } := by
  have hok := hI.thread i
  unfold ThreadOK ThreadOKCore at hok
  rw [hpc] at hok
  obtain ⟨h1, h2, hheld, hdis⟩ := hok
  have hbr : (s.threads i).req = zeroOpts ∧
      (s.threads i).obj = emptyResponse ∧ ¬storedNow m h r s := by
    rcases hdis with ⟨-, -, hobj, -⟩ | hb
    · exfalso
      rw [hobj] at hnf
      exact hnf ⟨hs.sfound, hs.sfresh⟩
    · exact hb
  obtain ⟨hz, hobj, hnst⟩ := hbr
  have hsiff : ((tickBackend m s.engine).objects
      (scObjHash m h r)).found = true ↔ storedNow m h r s := by
    unfold storedNow
    rw [tickBackend_objects]
  have huo := no_other_origin hI hnst i hheld
  have hflip := CInv_counts_originflip m h r now hI i
    { (s.threads i) with pc := TPC.beRun, didOrigin := true }
    h1 rfl rfl (by exact (by decide : ¬donePC TPC.beRun)) huo
  refine ⟨?_, ?_, ?_, hI.gen_fresh, hI.entry_lt, ?_, ?_, ?_, hflip.1, ?_,
    ?_, ?_, ?_, ?_, ?_, ?_⟩
  · intro j
    by_cases hj : j = i
    · subst hj
      unfold ThreadOK ThreadOKCore
      rw [updThread_same]
      exact ⟨rfl, h2, hheld, hz, hobj, fun hx => hnst (hsiff.mp hx)⟩
    · unfold ThreadOK
      rw [updThread_ne _ _ _ hj]
      exact (ThreadOKCore_congr m h r now (s.threads j) _ _ _ _
        Iff.rfl hsiff).mpr (hI.thread j)
  · intro j hpcj
    by_cases hj : j = i
    · subst hj
      rw [updThread_same] at hpcj
      exact absurd hpcj (by decide : ¬(TPC.beRun = TPC.acquire))
    · have := hI.acquire_lt j
      rw [updThread_ne _ _ _ hj] at hpcj ⊢
      exact this hpcj
  · exact held_inv_upd hI i _ rfl
      (fun _ => by decide : inCrit (s.threads i).pc → inCrit TPC.beRun)
  · intro _
    exact hI.prestore hnst
  · rcases hI.opts_inv with ⟨ho, -⟩ | ⟨-, hstc⟩
    · refine Or.inl ⟨?_, fun hx => hnst (hsiff.mp hx)⟩
      show (tickBackend m s.engine).requestOpts (getRequestHash m r)
        = zeroOpts
      rw [tickBackend_requestOpts]
      exact ho
    · exact absurd hstc hnst
  · show (tickBackend m s.engine).objects (scObjHash m h r) = emptyResponse
      ∨ (tickBackend m s.engine).objects (scObjHash m h r)
        = scStored m h r now
    rw [tickBackend_objects]
    exact hI.objects_OH
  · show s.engine.originCalls + 1 = _
    exact hflip.2.1
  · show (tickBackend m s.engine).backends = s.engine.originCalls + 1
    rw [tickBackend_backends_inc m s.engine hs.mon, hI.cnt_backends]
  · show (tickBackend m s.engine).hits = _
    rw [tickBackend_hits]
    exact hflip.2.2.1
  · show (tickBackend m s.engine).misses = _
    rw [tickBackend_misses]
    exact hflip.2.2.2
  · show (tickBackend m s.engine).stales = 0
    rw [tickBackend_stales]
    exact hI.cnt_stales
  · show (tickBackend m s.engine).errors = 0
    rw [tickBackend_errors]
    exact hI.cnt_errors
  · intro hx
    exact absurd (hsiff.mp hx) hnst

theorem CInv_beRun (m : MCConfig) (h : Handler) (r : Request) (now : Int)
    {n : Nat} {s : CState n} (hI : CInv m h r now s) (i : Fin n)
    (hpc : (s.threads i).pc = TPC.beRun) :
    CInv m h r now (updThread s i
      { (s.threads i) with
        pc := TPC.beEnd
        beres := execBackend m h r false }) := by
  have hok := hI.thread i
  unfold ThreadOK ThreadOKCore at hok
  rw [hpc] at hok
  obtain ⟨hd, h2, hheld, hz, hobj, hnst⟩ := hok
  have hcounts := CInv_counts_upd m h r now hI i
    { (s.threads i) with
      pc := TPC.beEnd
      beres := execBackend m h r false }
    rfl rfl (by
      rw [hpc]
      constructor
      · rintro ⟨-, hdp⟩
        exact absurd hdp (by decide : ¬donePC TPC.beEnd)
      · rintro ⟨-, hdp⟩
        exact absurd hdp (by decide : ¬donePC TPC.beRun))
  refine ⟨?_, ?_, ?_, hI.gen_fresh, hI.entry_lt, hI.prestore, hI.opts_inv,
    hI.objects_OH, hcounts.1, hcounts.2.1, hI.cnt_backends, hcounts.2.2.1,
    hcounts.2.2.2.1, hI.cnt_stales, hI.cnt_errors, hcounts.2.2.2.2⟩
  · intro j
    by_cases hj : j = i
    · subst hj
      unfold ThreadOK ThreadOKCore
      rw [updThread_same]
      exact ⟨hd, h2, hheld, hz, hobj, rfl, hnst⟩
    · unfold ThreadOK
      rw [updThread_ne _ _ _ hj]
      exact hI.thread j
  · intro j hpcj
    by_cases hj : j = i
    · subst hj
      rw [updThread_same] at hpcj
      exact absurd hpcj (by decide : ¬(TPC.beEnd = TPC.acquire))
    · have := hI.acquire_lt j
      rw [updThread_ne _ _ _ hj] at hpcj ⊢
      exact this hpcj
  · exact held_inv_upd hI i _ rfl
      (fun _ => by decide : inCrit (s.threads i).pc → inCrit TPC.beEnd)

theorem CInv_beEnd (m : MCConfig) (h : Handler) (r : Request) (now : Int)
    {n : Nat} {s : CState n} (hs : Scn m h r now) (hI : CInv m h r now s)
    (i : Fin n) (hpc : (s.threads i).pc = TPC.beEnd) :
    CInv m h r now
      { (updThread s i { (s.threads i) with
          pc := TPC.unlockA
          observed := (backendFinish m r now (getRequestHash m r)
            (s.threads i).req (s.threads i).objHash (s.threads i).obj
            (s.threads i).beres false s.engine).2 })
        with engine := (backendFinish m r now (getRequestHash m r)
          (s.threads i).req (s.threads i).objHash (s.threads i).obj
          (s.threads i).beres false s.engine).1 } := by
  have hok := hI.thread i
  unfold ThreadOK ThreadOKCore at hok
  rw [hpc] at hok
  obtain ⟨hd, h2, hheld, hz, hobj, hbe, hnst⟩ := hok
  have hbf : backendFinish m r now (getRequestHash m r) (s.threads i).req
      (s.threads i).objHash (s.threads i).obj (s.threads i).beres false
      s.engine
      = (tickMiss m (driverSet (driverSetRequestOpts s.engine
          (getRequestHash m r) (scOpts m h r)) (scObjHash m h r)
          (scStored m h r now)),
        exposureEvents m "MISS" ++ sendResponse
          { (scBeres m h r) with
            found := true
            expires := now + (scOpts m h r).ttl }) := by
    rw [hz, hobj, hbe]
    exact beEnd_eval m h r now hs (s.threads i).objHash s.engine
  rw [hbf]
  show CInv m h r now
    { (updThread s i { (s.threads i) with
        pc := TPC.unlockA
        observed := exposureEvents m "MISS" ++ sendResponse
          { (scBeres m h r) with
            found := true
            expires := now + (scOpts m h r).ttl } })
      with engine := tickMiss m (driverSet (driverSetRequestOpts s.engine
        (getRequestHash m r) (scOpts m h r)) (scObjHash m h r)
        (scStored m h r now)) }
  have hobj2 : (tickMiss m (driverSet (driverSetRequestOpts s.engine
      (getRequestHash m r) (scOpts m h r)) (scObjHash m h r)
      (scStored m h r now))).objects (scObjHash m h r)
      = scStored m h r now := by
    rw [tickMiss_objects]
    exact fupd_self _ _ _
  have hstored : ((tickMiss m (driverSet (driverSetRequestOpts s.engine
      (getRequestHash m r) (scOpts m h r)) (scObjHash m h r)
      (scStored m h r now))).objects (scObjHash m h r)).found = true := by
    rw [hobj2]
    exact hs.sfound
  have hdoj : ∀ a : Fin n, ((updThread s i { (s.threads i) with
      pc := TPC.unlockA
      observed := exposureEvents m "MISS" ++ sendResponse
        { (scBeres m h r) with
          found := true
          expires := now + (scOpts m h r).ttl } }).threads a).didOrigin
      = (s.threads a).didOrigin := by
    intro a
    by_cases hai : a = i
    · subst hai
      rw [updThread_same]
    · rw [updThread_ne _ _ _ hai]
  have hhitj : ∀ a : Fin n, ((updThread s i { (s.threads i) with
      pc := TPC.unlockA
      observed := exposureEvents m "MISS" ++ sendResponse
        { (scBeres m h r) with
          found := true
          expires := now + (scOpts m h r).ttl } }).threads a).observedHit
      = (s.threads a).observedHit := by
    intro a
    by_cases hai : a = i
    · subst hai
      rw [updThread_same]
    · rw [updThread_ne _ _ _ hai]
  refine ⟨?_, ?_, ?_, hI.gen_fresh, hI.entry_lt, ?_, ?_, ?_, ?_, ?_, ?_,
    ?_, ?_, ?_, ?_, ?_⟩
  · intro j
    by_cases hj : j = i
    · subst hj
      unfold ThreadOK ThreadOKCore
      rw [updThread_same]
      exact ⟨hheld, hstored, Or.inl ⟨hd, h2⟩⟩
    · unfold ThreadOK
      rw [updThread_ne _ _ _ hj]
      have hokj := hI.thread j
      unfold ThreadOK ThreadOKCore at hokj
      unfold ThreadOKCore
      cases hpcj : (s.threads j).pc <;> rw [hpcj] at hokj
      · exact hokj
      · refine ⟨hokj.1, hokj.2.1, ?_⟩
        rcases hokj.2.2 with hz2 | ⟨-, hst2⟩
        · exact Or.inl hz2
        · exact absurd hst2 hnst
      · refine ⟨hokj.1, hokj.2.1, ?_⟩
        rcases hokj.2.2 with hz2 | ⟨-, hst2⟩
        · exact Or.inl hz2
        · exact absurd hst2 hnst
      · refine ⟨hokj.1, hokj.2.1, ?_⟩
        rcases hokj.2.2 with hz2 | ⟨-, hst2⟩
        · exact Or.inl hz2
        · exact absurd hst2 hnst
      · exact absurd (onecrit m h r now hI hnst hokj.2.2.2 hheld) hj
      · exact absurd (onecrit m h r now hI hnst hokj.2.2.1 hheld) hj
      · exact absurd (onecrit m h r now hI hnst hokj.2.2.1 hheld) hj
      · exact absurd (onecrit m h r now hI hnst hokj.2.2.1 hheld) hj
      · exact absurd (onecrit m h r now hI hnst hokj.2.2.1 hheld) hj
      · exact absurd hokj.2.1 hnst
      · exact absurd hokj.1 hnst
      · exact absurd hokj.1 hnst
  · intro j hpcj
    by_cases hj : j = i
    · subst hj
      rw [updThread_same] at hpcj
      exact absurd hpcj (by decide : ¬(TPC.unlockA = TPC.acquire))
    · have := hI.acquire_lt j
      rw [updThread_ne _ _ _ hj] at hpcj ⊢
      exact this hpcj
  · exact held_inv_upd hI i _ rfl
      (fun _ => by decide : inCrit (s.threads i).pc → inCrit TPC.unlockA)
  · intro hx
    exact absurd hstored hx
  · refine Or.inr ⟨?_, hstored⟩
    show (tickMiss m (driverSet (driverSetRequestOpts s.engine
      (getRequestHash m r) (scOpts m h r)) (scObjHash m h r)
      (scStored m h r now))).requestOpts (getRequestHash m r)
      = scOpts m h r
    rw [tickMiss_requestOpts]
    exact fupd_self _ _ _
  · exact Or.inr hobj2
  · intro a b ha hb
    rw [hdoj a] at ha
    rw [hdoj b] at hb
    exact hI.uniq_origin a b ha hb
  · show (tickMiss m (driverSet (driverSetRequestOpts s.engine
      (getRequestHash m r) (scOpts m h r)) (scObjHash m h r)
      (scStored m h r now))).originCalls = _
    rw [tickMiss_originCalls]
    show s.engine.originCalls = _
    rw [hI.cnt_origin]
    exact (crd_congr _ _ (fun j => by rw [hdoj j])).symm
  · show (tickMiss m (driverSet (driverSetRequestOpts s.engine
      (getRequestHash m r) (scOpts m h r)) (scObjHash m h r)
      (scStored m h r now))).backends
      = (tickMiss m (driverSet (driverSetRequestOpts s.engine
        (getRequestHash m r) (scOpts m h r)) (scObjHash m h r)
        (scStored m h r now))).originCalls
    rw [tickMiss_backends, tickMiss_originCalls]
    show s.engine.backends = s.engine.originCalls
    exact hI.cnt_backends
  · show (tickMiss m (driverSet (driverSetRequestOpts s.engine
      (getRequestHash m r) (scOpts m h r)) (scObjHash m h r)
      (scStored m h r now))).hits = _
    rw [tickMiss_hits]
    show s.engine.hits = _
    rw [hI.cnt_hits]
    exact (crd_congr _ _ (fun j => by rw [hhitj j])).symm
  · show (tickMiss m (driverSet (driverSetRequestOpts s.engine
      (getRequestHash m r) (scOpts m h r)) (scObjHash m h r)
      (scStored m h r now))).misses = _
    rw [tickMiss_misses_inc m _ hs.mon]
    show s.engine.misses + 1 = _
    rw [hI.cnt_misses]
    exact (crd_update_flip s.threads i
      { (s.threads i) with
        pc := TPC.unlockA
        observed := exposureEvents m "MISS" ++ sendResponse
          { (scBeres m h r) with
            found := true
            expires := now + (scOpts m h r).ttl } }
      (fun t => t.didOrigin = true ∧ donePC t.pc)
      (by
        show ¬((s.threads i).didOrigin = true ∧ donePC (s.threads i).pc)
        rintro ⟨-, hdp⟩
        rw [hpc] at hdp
        exact absurd hdp (by decide : ¬donePC TPC.beEnd))
      ⟨hd, (by decide : donePC TPC.unlockA)⟩).symm
  · show (tickMiss m (driverSet (driverSetRequestOpts s.engine
      (getRequestHash m r) (scOpts m h r)) (scObjHash m h r)
      (scStored m h r now))).stales = 0
    rw [tickMiss_stales]
    show s.engine.stales = 0
    exact hI.cnt_stales
  · show (tickMiss m (driverSet (driverSetRequestOpts s.engine
      (getRequestHash m r) (scOpts m h r)) (scObjHash m h r)
      (scStored m h r now))).errors = 0
    rw [tickMiss_errors]
    show s.engine.errors = 0
    exact hI.cnt_errors
  · intro _
    refine ⟨i, ?_, ?_⟩
    · rw [updThread_same]
      exact hd
    · rw [updThread_same]
      exact (by decide : donePC TPC.unlockA)

theorem CInv_unlockA (m : MCConfig) (h : Handler) (r : Request) (now : Int)
    {n : Nat} {s : CState n} (hI : CInv m h r now s) (i : Fin n)
    (hpc : (s.threads i).pc = TPC.unlockA) :
    CInv m h r now
      { (updThread s i { (s.threads i) with pc := TPC.unlockB }) with
        mheld := Function.update s.mheld (s.threads i).myMutex none } := by
  have hok := hI.thread i
  unfold ThreadOK ThreadOKCore at hok
  rw [hpc] at hok
  obtain ⟨hheld, hst, hor⟩ := hok
  have hcounts := CInv_counts_upd m h r now hI i
    { (s.threads i) with pc := TPC.unlockB }
    rfl rfl (by
      rw [hpc]
      constructor
      · rintro ⟨hdo2, -⟩
        exact ⟨hdo2, (by decide : donePC TPC.unlockA)⟩
      · rintro ⟨hdo2, -⟩
        exact ⟨hdo2, (by decide : donePC TPC.unlockB)⟩)
  have hmj : ∀ j : Fin n, j ≠ i →
      (Function.update s.mheld ((s.threads i).myMutex) none
          ((s.threads j).myMutex) = some j ↔
        s.mheld ((s.threads j).myMutex) = some j) := by
    intro j hj
    by_cases hm : (s.threads j).myMutex = (s.threads i).myMutex
    · rw [hm, Function.update_same]
      constructor
      · intro hx
        exact Option.noConfusion hx
      · intro hx
        exfalso
        rw [hheld] at hx
        exact hj (Option.some.inj hx).symm
    · rw [Function.update_noteq hm]
  refine ⟨?_, ?_, ?_, ?_, hI.entry_lt, ?_, hI.opts_inv, hI.objects_OH,
    hcounts.1, hcounts.2.1, hI.cnt_backends, hcounts.2.2.1,
    hcounts.2.2.2.1, hI.cnt_stales, hI.cnt_errors, hcounts.2.2.2.2⟩
  · intro j
    by_cases hj : j = i
    · subst hj
      unfold ThreadOK ThreadOKCore
      rw [updThread_same]
      exact ⟨hst, hor⟩
    · unfold ThreadOK
      rw [updThread_ne _ _ _ hj]
      exact (ThreadOKCore_congr m h r now (s.threads j) _ _ _ _
        (hmj j hj) Iff.rfl).mpr (hI.thread j)
  · intro j hpcj
    by_cases hj : j = i
    · subst hj
      rw [updThread_same] at hpcj
      exact absurd hpcj (by decide : ¬(TPC.unlockB = TPC.acquire))
    · have := hI.acquire_lt j
      rw [updThread_ne _ _ _ hj] at hpcj ⊢
      exact this hpcj
  · intro g j hg
    have hg2 : Function.update s.mheld ((s.threads i).myMutex) none g
        = some j := hg
    by_cases hgm : g = (s.threads i).myMutex
    · subst hgm
      rw [Function.update_same] at hg2
      exact Option.noConfusion hg2
    · rw [Function.update_noteq hgm] at hg2
      obtain ⟨hm, hc⟩ := hI.held_inv g j hg2
      by_cases hj : j = i
      · subst hj
        exact absurd hm.symm hgm
      · rw [updThread_ne _ _ _ hj]
        exact ⟨hm, hc⟩
  · intro g hg
    show Function.update s.mheld ((s.threads i).myMutex) none g = none
    have hg2 : s.gen ≤ g := hg
    by_cases hgm : g = (s.threads i).myMutex
    · rw [hgm, Function.update_same]
    · rw [Function.update_noteq hgm]
      exact hI.gen_fresh g hg2
  · intro hx
    exact absurd hst hx

theorem CInv_unlockB (m : MCConfig) (h : Handler) (r : Request) (now : Int)
    {n : Nat} {s : CState n} (hI : CInv m h r now s) (i : Fin n)
    (hpc : (s.threads i).pc = TPC.unlockB) :
    CInv m h r now
      { (updThread s i { (s.threads i) with pc := TPC.done }) with
        entry := none } := by
  have hok := hI.thread i
  unfold ThreadOK ThreadOKCore at hok
  rw [hpc] at hok
  obtain ⟨hst, hor⟩ := hok
  have hcounts := CInv_counts_upd m h r now hI i
    { (s.threads i) with pc := TPC.done }
    rfl rfl (by
      rw [hpc]
      constructor
      · rintro ⟨hdo2, -⟩
        exact ⟨hdo2, (by decide : donePC TPC.unlockB)⟩
      · rintro ⟨hdo2, -⟩
        exact ⟨hdo2, (by decide : donePC TPC.done)⟩)
  refine ⟨?_, ?_, ?_, hI.gen_fresh, ?_, ?_, hI.opts_inv, hI.objects_OH,
    hcounts.1, hcounts.2.1, hI.cnt_backends, hcounts.2.2.1,
    hcounts.2.2.2.1, hI.cnt_stales, hI.cnt_errors, hcounts.2.2.2.2⟩
  · intro j
    by_cases hj : j = i
    · subst hj
      unfold ThreadOK ThreadOKCore
      rw [updThread_same]
      exact ⟨hst, hor⟩
    · unfold ThreadOK
      rw [updThread_ne _ _ _ hj]
      exact hI.thread j
  · intro j hpcj
    by_cases hj : j = i
    · subst hj
      rw [updThread_same] at hpcj
      exact absurd hpcj (by decide : ¬(TPC.done = TPC.acquire))
    · have := hI.acquire_lt j
      rw [updThread_ne _ _ _ hj] at hpcj ⊢
      exact this hpcj
  · exact held_inv_upd2 hI i _
      (not_held_of_pc hI i hpc (by decide : ¬inCrit TPC.unlockB))
  · intro g hg
    have hg2 : (none : Option Nat) = some g := hg
    exact Option.noConfusion hg2
  · intro hx
    exact absurd hst hx

theorem CInv_step (m : MCConfig) (h : Handler) (r : Request) (now : Int)
    {n : Nat} {s s2 : CState n} (hs : Scn m h r now) (hI : CInv m h r now s)
    (hstep : CStep m h r now s s2) : CInv m h r now s2 := by
  cases hstep with
  | fetch i hpc => exact CInv_fetch m h r now hI i hpc
  | checkNocache i hpc hnc =>
      exact CInv_checkNocache m h r now hs hI i hpc hnc
  | checkGo i hpc hnc => exact CInv_checkGo m h r now hI i hpc
  | gateJoin i g hpc he => exact CInv_gateJoin m h r now hI i g hpc he
  | gateCreate i hpc he => exact CInv_gateCreate m h r now hI i hpc he
  | acquire i hpc hfree => exact CInv_acquire m h r now hI i hpc hfree
  | reread i hpc => exact CInv_reread m h r now hs hI i hpc
  | lookup i hpc => exact CInv_lookup m h r now hs hI i hpc
  | actHit i hpc hfresh => exact CInv_actHit m h r now hs hI i hpc hfresh
  | actSwr i hpc hnf hswr => exact CInv_actSwr m h r now hs hI i hpc hnf hswr
  | actMiss i hpc hnf hnswr => exact CInv_actMiss m h r now hs hI i hpc hnf
  | beRun i hpc => exact CInv_beRun m h r now hI i hpc
  | beEnd i hpc => exact CInv_beEnd m h r now hs hI i hpc
  | unlockA i hpc => exact CInv_unlockA m h r now hI i hpc
  | unlockB i hpc => exact CInv_unlockB m h r now hI i hpc

theorem CInv_reach (m : MCConfig) (h : Handler) (r : Request) (now : Int)
    {n : Nat} (hs : Scn m h r now) {s : CState n}
    (hre : CReach m h r now s) : CInv m h r now s := by
  induction hre with
  | init => exact CInv_init m h r now n
  | step hre2 hstep ih => exact CInv_step m h r now hs ih hstep

/-- C3: with collapsed forwarding on, for N concurrent first-time requests
for the same request key on a cold cache, under any interleaving of the
embedded Middleware steps: origin calls are strictly serialized by the
per-key mutex (no two threads are ever simultaneously inside the backend
call), and in every final state the origin handler has been invoked
exactly once (originCalls = backends = misses = 1) while each of the other
N-1 threads, having re-read the driver after acquiring the lock, observed
the first response as a hit (hits = N-1, and every thread that did not
call the origin replayed the stored first response with HIT exposure). -/
theorem collapsed_forwarding_single_flight (m : MCConfig) (h : Handler)
    (r : Request) (now : Int) {n : Nat} (hs : Scn m h r now)
    (s : CState n) (hre : CReach m h r now s) :
    (∀ i j, inFlight s i → inFlight s j → i = j) ∧
    (0 < n → (∀ i, (s.threads i).pc = TPC.done) →
      s.engine.originCalls = 1 ∧ s.engine.backends = 1 ∧
      s.engine.misses = 1 ∧ s.engine.hits = n - 1 ∧
      ∀ i, (s.threads i).didOrigin = false →
        (s.threads i).observedHit = true ∧
        (s.threads i).observed =
          exposureEvents m "HIT" ++ sendResponse (scStored m h r now)) := by
  have hI := CInv_reach m h r now hs hre
  constructor
  · intro i j hi hj
    have hihold : s.mheld ((s.threads i).myMutex) = some i ∧
        ¬storedNow m h r s := by
      have hok := hI.thread i
      unfold ThreadOK ThreadOKCore at hok
      rcases hi with hpc | hpc <;> rw [hpc] at hok
      · exact ⟨hok.2.2.1, hok.2.2.2.2.2⟩
      · exact ⟨hok.2.2.1, hok.2.2.2.2.2.2⟩
    have hjhold : s.mheld ((s.threads j).myMutex) = some j := by
      have hok := hI.thread j
      unfold ThreadOK ThreadOKCore at hok
      rcases hj with hpc | hpc <;> rw [hpc] at hok
      · exact hok.2.2.1
      · exact hok.2.2.1
    exact onecrit m h r now hI hihold.2 hihold.1 hjhold
  · intro hn hdone
    have hst : storedNow m h r s := by
      have hok := hI.thread ⟨0, hn⟩
      unfold ThreadOK ThreadOKCore at hok
      rw [hdone ⟨0, hn⟩] at hok
      exact hok.1
    have hdich : ∀ i, ((s.threads i).didOrigin = true ∧
        (s.threads i).observedHit = false) ∨
        ((s.threads i).didOrigin = false ∧
          (s.threads i).observedHit = true ∧
          (s.threads i).observed =
            exposureEvents m "HIT" ++ sendResponse (scStored m h r now)) := by
      intro i
      have hok := hI.thread i
      unfold ThreadOK ThreadOKCore at hok
      rw [hdone i] at hok
      exact hok.2
    obtain ⟨w, hw1, -⟩ := hI.stored_wit hst
    have horig : s.engine.originCalls = 1 := by
      rw [hI.cnt_origin]
      have hle := crd_le_one (fun i => (s.threads i).didOrigin = true)
        hI.uniq_origin
      have hge := crd_pos (fun i => (s.threads i).didOrigin = true) w hw1
      omega
    refine ⟨horig, ?_, ?_, ?_, ?_⟩
    · rw [hI.cnt_backends, horig]
    · rw [hI.cnt_misses]
      have hdp2 : crd (fun i => (s.threads i).didOrigin = true ∧
          donePC (s.threads i).pc)
          = crd (fun i => (s.threads i).didOrigin = true) := by
        apply crd_congr
        intro i
        constructor
        · rintro ⟨hd, -⟩
          exact hd
        · intro hd
          refine ⟨hd, ?_⟩
          rw [hdone i]
          exact (by decide : donePC TPC.done)
      rw [hdp2, ← hI.cnt_origin, horig]
    · have hiff : ∀ i, (s.threads i).observedHit = true ↔
          ¬((s.threads i).didOrigin = true) := by
        intro i
        rcases hdich i with ⟨hd, hh⟩ | ⟨hd, hh, -⟩
        · constructor
          · intro hx
            rw [hh] at hx
            exact absurd hx Bool.false_ne_true
          · intro hx
            exact absurd hd hx
        · constructor
          · intro _
            rw [hd]
            exact fun hx => Bool.noConfusion hx
          · intro _
            exact hh
      have h2 : crd (fun i => (s.threads i).observedHit = true)
          = crd (fun i => ¬((s.threads i).didOrigin = true)) :=
        crd_congr _ _ hiff
      have h3 : crd (fun i => (s.threads i).didOrigin = true)
          + crd (fun i => ¬((s.threads i).didOrigin = true)) = n :=
        crd_compl _
      have horig2 : crd (fun i => (s.threads i).didOrigin = true) = 1 := by
        rw [← hI.cnt_origin]
        exact horig
      rw [hI.cnt_hits, h2]
      omega
    · intro i hdo
      rcases hdich i with ⟨hd, -⟩ | ⟨-, hh, hobs⟩
      · rw [hdo] at hd
        exact absurd hd Bool.false_ne_true
      · exact ⟨hh, hobs⟩

/-- C3 witness: the single-flight theorem applied at the cold start of the
one-thread instance, the scenario side conditions checked concretely on
the collapsed-forwarding configuration. -/
theorem collapsed_forwarding_single_flight_witness :
    (∀ i j : Fin 1, inFlight (initCState 1) i → inFlight (initCState 1) j →
      i = j) ∧
    (0 < 1 → (∀ i : Fin 1, ((initCState 1).threads i).pc = TPC.done) →
      (initCState 1).engine.originCalls = 1 ∧
      (initCState 1).engine.backends = 1 ∧
      (initCState 1).engine.misses = 1 ∧
      (initCState 1).engine.hits = 1 - 1 ∧
      ∀ i : Fin 1, ((initCState 1).threads i).didOrigin = false →
        ((initCState 1).threads i).observedHit = true ∧
        ((initCState 1).threads i).observed =
          exposureEvents cfConfig "HIT" ++
            sendResponse (scStored cfConfig okHandler getRoot 0)) :=
  collapsed_forwarding_single_flight cfConfig okHandler getRoot 0
    ⟨by decide, by decide, by decide, by decide, by decide, by decide,
     by decide, by decide⟩
    (initCState 1) CReach.init

end Microcache
